import Mathlib

/-!
Verification development for the mini_lsm key-value store.

The Go source is embedded shallowly: byte slices become `List Nat`
(one `Nat` per byte), nil-able Go slices become `Option (List Nat)`
(`none` is the nil slice, `some l` a non-nil slice with contents `l`),
machine integers become `Nat`/`Int` with explicit `% 2 ^ 32` where the
Go code computes in `uint32`, and fallible operations return `Except`
or pair an `Option` error with their result exactly as the Go functions
pair a value with an `error`.
-/

set_option maxRecDepth 4000

/-- Error kinds used by the source (package myerror plus the Go stdlib
errors that the source lets escape: `io.EOF`, `io.ErrUnexpectedEOF` and
`strconv` parse errors each get one distinct constructor). -/
inductive GErr where
  | keyNotFound
  | valueNil
  | keyNil
  | invalidSSTFormat
  | sstCorrupted
  | walCorrupted
  | crcMismatch
  | recordTooShort
  | recordTooLarge
  | recordIncomplete
  | decodeCrc
  | sstReaderFilter
  | eofErr
  | unexpectedEofErr
  | numParseErr
  deriving DecidableEq

instance {ε α : Type} [DecidableEq ε] [DecidableEq α] : DecidableEq (Except ε α) :=
  fun a b =>
    match a, b with
    | .error x, .error y =>
        if h : x = y then .isTrue (congrArg Except.error h)
        else .isFalse (fun hc => h (Except.error.inj hc))
    | .ok x, .ok y =>
        if h : x = y then .isTrue (congrArg Except.ok h)
        else .isFalse (fun hc => h (Except.ok.inj hc))
    | .error _, .ok _ => .isFalse (fun hc => Except.noConfusion hc)
    | .ok _, .error _ => .isFalse (fun hc => Except.noConfusion hc)

/-- Go nil-able byte slice: `none` is the nil slice. -/
def GoB : Type := Option (List Nat)

instance : DecidableEq GoB := by unfold GoB; infer_instance

/-- Contents of a Go byte slice (nil has empty contents). -/
def goData : GoB → List Nat
  | none => []
  | some l => l

/-- Big-endian encoding of a `uint32` value (Go `binary.Write` of
`uint32(n)`; the cast truncates mod `2 ^ 32`). -/
def u32be (n : Nat) : List Nat :=
  [n / 2 ^ 24 % 256, n / 2 ^ 16 % 256, n / 2 ^ 8 % 256, n % 256]

/-- Big-endian encoding of a non-negative `int64` value. -/
def i64be (n : Nat) : List Nat :=
  [n / 2 ^ 56 % 256, n / 2 ^ 48 % 256, n / 2 ^ 40 % 256, n / 2 ^ 32 % 256,
   n / 2 ^ 24 % 256, n / 2 ^ 16 % 256, n / 2 ^ 8 % 256, n % 256]

/-- Big-endian `uint32` read from the first four bytes of a list; the
callers guard the length so the catch-all is unreachable. -/
def beU32At (l : List Nat) : Nat :=
  match l with
  | a :: b :: c :: d :: _ => ((a * 256 + b) * 256 + c) * 256 + d
  | _ => 0

/-- Big-endian `int64` read (non-negative range) from eight bytes. -/
def beU64At (l : List Nat) : Nat :=
  match l with
  | a :: b :: c :: d :: e :: f :: g :: h :: _ =>
      ((((((a * 256 + b) * 256 + c) * 256 + d) * 256 + e) * 256 + f) * 256 + g) * 256 + h
  | _ => 0

/-- Flip bit `j` of the byte at index `i` of a byte list. -/
def flipAt (l : List Nat) (i j : Nat) : List Nat :=
  l.take i ++ [(l.getD i 0) ^^^ 2 ^ j] ++ l.drop (i + 1)

/-! ## CRC-32 (IEEE), as computed by Go `hash/crc32.ChecksumIEEE` -/

def crcPoly : Nat := 0xEDB88320

/-- One bit step of the reflected CRC-32 register. -/
def crcStep (r : Nat) : Nat :=
  if r % 2 = 1 then (r / 2) ^^^ crcPoly else r / 2

/-- Eight bit steps (one byte worth of shifting). -/
def crcStep8 (r : Nat) : Nat :=
  crcStep (crcStep (crcStep (crcStep (crcStep (crcStep (crcStep (crcStep r)))))))

/-- Absorb one byte into the CRC register. -/
def crcByte (r b : Nat) : Nat := crcStep8 (r ^^^ b)

def crcFold (r : Nat) (l : List Nat) : Nat := l.foldl crcByte r

/-- `crc32.ChecksumIEEE` over a byte list. -/
def crc32 (l : List Nat) : Nat := crcFold 0xFFFFFFFF l ^^^ 0xFFFFFFFF

/-! ## WAL record codec (src/inner/wal/record.go) -/

/-- A decoded WAL record. -/
structure RecordM where
  recordType : Nat
  key : List Nat
  value : List Nat
  deriving DecidableEq

/-- `Record.Encode`: type byte, two big-endian `uint32` lengths, key,
value, then the IEEE CRC over everything before it. -/
def encodeRecord (rt : Nat) (key value : List Nat) : List Nat :=
  let payload := rt :: (u32be key.length ++ u32be value.length ++ key ++ value)
  payload ++ u32be (crc32 payload)

/-- `DecodeRecord` from record.go: length guards, sanity caps on the
decoded lengths, then CRC comparison.  The length comparison happens in
`uint32` in Go, hence the `% 2 ^ 32`. -/
def decodeRecord (data : List Nat) : Except GErr RecordM :=
  if data.length < 9 then .error .recordTooShort
  else
    let rt := data.headD 0
    let kl := beU32At (data.drop 1)
    let vl := beU32At (data.drop 5)
    if 10 * 1024 * 1024 < kl ∨ 100 * 1024 * 1024 < vl then .error .recordTooLarge
    else if data.length % 2 ^ 32 < (9 + kl + vl + 4) % 2 ^ 32 then .error .recordIncomplete
    else
      let key := (data.drop 9).take kl
      let value := (data.drop (9 + kl)).take vl
      let crcData := data.drop (9 + kl + vl)
      if crcData.length < 4 then .error .decodeCrc
      else
        let storedCrc := beU32At crcData
        let actualCrc := crc32 (data.take (9 + kl + vl))
        if storedCrc ≠ actualCrc then .error .crcMismatch
        else .ok ⟨rt, key, value⟩

/-! ## Memtable (BTreeMemTable from src/inner/memtable) -/

/-- The memtable contents: key/value pairs; both are deep copies so
they are plain (non-nil) byte lists. -/
def MemtableM : Type := List (List Nat × List Nat)

instance : DecidableEq MemtableM := by unfold MemtableM; infer_instance

/-- `btree.ReplaceOrInsert` effect on the association list. -/
def mtInsert (mt : MemtableM) (k v : List Nat) : MemtableM :=
  match mt with
  | [] => [(k, v)]
  | e :: rest => if e.1 = k then (k, v) :: rest else e :: mtInsert rest k v

/-- `BTreeMemTable.Put`: only a nil key is rejected; the stored key and
value are deep copies (`append([]byte{}, ...)`), hence never nil. -/
def mtPut (mt : MemtableM) (key value : GoB) : Except GErr MemtableM :=
  match key with
  | none => .error .keyNil
  | some k => .ok (mtInsert mt k (goData value))

/-- `BTreeMemTable.Get`: returns the Go `(value, error)` pair. -/
def mtGet (mt : MemtableM) (key : GoB) : GoB × Option GErr :=
  match key with
  | none => (none, some .keyNil)
  | some k =>
      match mt.find? (fun e => e.1 = k) with
      | some e => (some e.2, none)
      | none => (none, some .keyNotFound)

/-! ## WAL handle

Modelled from the spec: the file `wal.go` (the `Wal` struct with
`NewWal`, `Write`, `Size`, `ReadAll`, `Close`, `Delete`) is not among
the provided sources; only `record.go` is.  Per spec section 4.3 a WAL
is an append-only file of encoded records, `write(key, value)` appends
one record where an empty (nil) value means Delete, and `size()` is the
current byte length.  The record encoding itself is taken from the
source (`encodeRecord` above). -/
structure WalM where
  bytes : List Nat
  deriving DecidableEq

/-- `Wal.Write` (modelled from the spec): `NewRecord` picks type 1
(Delete) for a nil value, else type 0 (Put); the encoded record is
appended to the file. -/
def walWrite (w : WalM) (key value : GoB) : WalM :=
  ⟨w.bytes ++ encodeRecord (if value = none then 1 else 0) (goData key) (goData value)⟩

/-- `Wal.Size` (modelled from the spec): current byte length. -/
def walSize (w : WalM) : Nat := w.bytes.length

/-! ## SST node (part_008) -/

/-- In-memory SST node; `kvList` values are nil-able because `Node.Get`
tests them against nil. -/
structure NodeM where
  level : Int
  seq : Nat
  kvList : List (List Nat × GoB)
  deriving DecidableEq

/-- `Node.Get`: linear scan of the materialized kv list; a nil value
yields `ErrValueNil`, a missing key `ErrKeyNotFound`. -/
def nodeGet (n : NodeM) (key : List Nat) : GoB × Option GErr :=
  match n.kvList.find? (fun kv => kv.1 = key) with
  | some kv => if kv.2 = none then (none, some .valueNil) else (kv.2, none)
  | none => (none, some .keyNotFound)

/-! ## LSM engine (src/inner/lsm.go) -/

structure ConfM where
  walSize : Nat
  levelSize : Nat
  deriving DecidableEq

structure LsmM where
  conf : ConfM
  mutableIndex : MemtableM
  walId : Nat
  curWal : WalM
  immutableIndex : List (WalM × MemtableM)
  nodes : List (List NodeM)
  deriving DecidableEq

/-- Fresh engine state (empty memtable, empty WAL, pre-allocated empty
levels), as built by `NewLsmTree` before recovery. -/
def lsmInit (conf : ConfM) : LsmM :=
  ⟨conf, [], 0, ⟨[]⟩, [], List.replicate conf.levelSize []⟩

/-- `rotateWal`: seal the current (wal, memtable) pair, bump the WAL id
and install a fresh WAL and memtable.  The compaction-channel publish
is asynchronous and carries no state change beyond the sealed list. -/
def rotateWal (t : LsmM) : LsmM :=
  { t with
    immutableIndex := t.immutableIndex ++ [(t.curWal, t.mutableIndex)]
    walId := t.walId + 1
    curWal := ⟨[]⟩
    mutableIndex := [] }

/-- `LsmTree.Put`: WAL append first, then memtable insert, then the
size-triggered rotation. -/
def lsmPut (t : LsmM) (key value : GoB) : Except GErr Unit × LsmM :=
  let t1 := { t with curWal := walWrite t.curWal key value }
  match mtPut t1.mutableIndex key value with
  | .error e => (.error e, t1)
  | .ok mt =>
      let t2 := { t1 with mutableIndex := mt }
      if t2.conf.walSize < walSize t2.curWal then (.ok (), rotateWal t2)
      else (.ok (), t2)

/-- `LsmTree.Delete`: identical to `Put` with a nil value (the WAL
record then carries the Delete type). -/
def lsmDelete (t : LsmM) (key : GoB) : Except GErr Unit × LsmM :=
  let t1 := { t with curWal := walWrite t.curWal key none }
  match mtPut t1.mutableIndex key none with
  | .error e => (.error e, t1)
  | .ok mt =>
      let t2 := { t1 with mutableIndex := mt }
      if t2.conf.walSize < walSize t2.curWal then (.ok (), rotateWal t2)
      else (.ok (), t2)

/-- The sealed-memtable loop of `LsmTree.Get` (iterates newest first;
the caller passes the reversed sealed list). -/
def sealedGetLoop (key : GoB) : List (WalM × MemtableM) → Option (GoB × Option GErr)
  | [] => none
  | (_, mt) :: rest =>
      let r := mtGet mt key
      match r.2 with
      | none => some (r.1, none)
      | some .keyNotFound => sealedGetLoop key rest
      | some _ => if r.1 ≠ none then some (r.1, none) else some (none, some .keyNotFound)

/-- The inner (within one level, newest first) node loop of
`LsmTree.Get`; the caller passes the reversed node slice. -/
def levelGetLoop (key : List Nat) : List NodeM → Option (GoB × Option GErr)
  | [] => none
  | n :: rest =>
      let r := nodeGet n key
      match r.2 with
      | none => if r.1 = none then some (r.1, some .valueNil) else some (r.1, none)
      | some .keyNotFound => levelGetLoop key rest
      | some e => some (none, some e)

/-- The outer per-level loop of `LsmTree.Get`. -/
def nodesGetLoop (key : List Nat) : List (List NodeM) → Option (GoB × Option GErr)
  | [] => none
  | lvl :: rest =>
      match levelGetLoop key lvl.reverse with
      | some r => some r
      | none => nodesGetLoop key rest

/-- `LsmTree.Get`: mutable memtable, then sealed memtables newest to
oldest, then SST nodes per level (newest first within a level). -/
def lsmGet (t : LsmM) (key : GoB) : GoB × Option GErr :=
  let r := mtGet t.mutableIndex key
  match r.2 with
  | none => (r.1, none)
  | some .keyNotFound =>
      match sealedGetLoop key t.immutableIndex.reverse with
      | some res => res
      | none =>
          match nodesGetLoop (goData key) t.nodes with
          | some res => res
          | none => (none, some .keyNotFound)
  | some e => (none, some e)

/-! ## SST block, bloom filter, writer (part_004, part_005) -/

/-- An SST block-index entry (src/inner/sst/index.go). -/
structure IndexM where
  startKey : List Nat
  endKey : List Nat
  offset : Nat
  length : Nat
  deriving DecidableEq

/-- `Index.Encode`. -/
def encodeIndex (i : IndexM) : List Nat :=
  u32be i.startKey.length ++ u32be i.endKey.length ++ i.startKey ++ i.endKey ++
    i64be i.offset ++ i64be i.length

/-- A `Block` (part_005): byte buffer plus the entry count and first /
last keys (nil-able, cleared to nil by `Clear`). -/
structure BlockM where
  dataBuf : List Nat
  entriesCnt : Nat
  firstKey : GoB
  lastKey : GoB
  deriving DecidableEq

def newBlock : BlockM := ⟨[], 0, none, none⟩

/-- `Block.Add`: append one kv entry encoding, track first/last key. -/
def blockAdd (b : BlockM) (key value : List Nat) : BlockM :=
  { dataBuf := b.dataBuf ++ u32be key.length ++ u32be value.length ++ key ++ value
    entriesCnt := b.entriesCnt + 1
    firstKey := if b.entriesCnt = 0 then some key else b.firstKey
    lastKey := some key }

/-- `Block.FilterAdd`: append an `{i64 blockLength, u32 filterLen,
filterBytes}` frame. -/
def blockFilterAdd (b : BlockM) (len : Nat) (fbytes : List Nat) : BlockM :=
  { b with dataBuf := b.dataBuf ++ i64be len ++ u32be fbytes.length ++ fbytes }

/-- `Block.IndexAdd`: append an encoded index entry. -/
def blockIndexAdd (b : BlockM) (i : IndexM) : BlockM :=
  { b with dataBuf := b.dataBuf ++ encodeIndex i }

/-- `Block.Clear`. -/
def blockClear (_ : BlockM) : BlockM := ⟨[], 0, none, none⟩

/-- Bloom filter.

Modelled from the spec: the concrete bloom filter implementation is not
among the provided sources (src/inner/filter holds only the `Filter`
interface).  Per spec section 4.1 it is a fixed-width `(m, k)` filter
with `add`/`contains` (false positives allowed, no false negatives),
`save`/`load` serialization and `reset`; hashing uses stable seeds.
The bit array is stored as `m / 8` bytes; the hash is a concrete
deterministic stand-in (no claim depends on hash values). -/
structure BloomF where
  m : Nat
  k : Nat
  bits : List Nat
  deriving DecidableEq

def newBloomFilter (m k : Nat) : BloomF := ⟨m, k, List.replicate (m / 8) 0⟩

def bloomHash (seed : Nat) (key : List Nat) : Nat :=
  key.foldl (fun a b => (a * 31 + b) % 2 ^ 32) (seed * 2654435761 % 2 ^ 32)

def setBitByte (bits : List Nat) (pos : Nat) : List Nat :=
  bits.set (pos / 8) ((bits.getD (pos / 8) 0) ||| 2 ^ (pos % 8))

def testBitByte (bits : List Nat) (pos : Nat) : Bool :=
  (bits.getD (pos / 8) 0).testBit (pos % 8)

def bloomAdd (f : BloomF) (key : List Nat) : BloomF :=
  { f with
    bits := (List.range f.k).foldl
      (fun bs i => setBitByte bs (bloomHash i key % max f.m 1)) f.bits }

def bloomContains (f : BloomF) (key : List Nat) : Bool :=
  (List.range f.k).all (fun i => testBitByte f.bits (bloomHash i key % max f.m 1))

def bloomSave (f : BloomF) : List Nat := f.bits

def bloomLoad (f : BloomF) (data : List Nat) : BloomF := { f with bits := data }

def bloomReset (f : BloomF) : BloomF := { f with bits := List.replicate (f.m / 8) 0 }

/-- `SSTWriter` state (part_004).  `blockSize` is `conf.BlockSize`. -/
structure SSTWriterM where
  blockSize : Nat
  dataBuf : List Nat
  indexBuf : List Nat
  filterBuf : List Nat
  dataBlock : BlockM
  filterBlock : BlockM
  indexBlock : BlockM
  filter : BloomF
  mapFilter : List (Nat × List Nat)
  curBlockLength : Nat
  curBlockOffset : Nat
  index : List IndexM
  deriving DecidableEq

/-- `NewSSTWriter` (the file itself starts empty: create-or-append on a
fresh path). -/
def newSSTWriter (blockSize : Nat) : SSTWriterM :=
  ⟨blockSize, [], [], [], newBlock, newBlock, newBlock,
   newBloomFilter 1024 3, [], 0, 0, []⟩

/-- Replace-or-append into `mapFilter` (Go map assignment). -/
def mapFilterSet (l : List (Nat × List Nat)) (k : Nat) (v : List Nat) :
    List (Nat × List Nat) :=
  match l with
  | [] => [(k, v)]
  | e :: rest => if e.1 = k then (k, v) :: rest else e :: mapFilterSet rest k v

/-- `SSTWriter.mustRotateDataBlock`.

Faithful to the source's behaviour: `Block.Flush` writes the block into
`dataBuf`, returns the number of bytes written by that call (not the
cumulative buffer length) and then clears the block via its deferred
`Clear`, so the subsequent `FirstKey`/`LastKey` reads see nil and
`prevLength - currBlockLength` is always zero; the final
`dataBuf.Write(dataBlock.Bytes())` then appends the now-empty block. -/
def mustRotateDataBlock (s : SSTWriterM) : SSTWriterM :=
  let currBlockLength := s.dataBlock.dataBuf.length
  if currBlockLength = 0 then s
  else
    let currFilter := bloomSave s.filter
    let s1 := { s with
      mapFilter := mapFilterSet s.mapFilter currBlockLength currFilter
      filterBlock := blockFilterAdd s.filterBlock currBlockLength currFilter
      filter := bloomReset s.filter }
    let prevLength := s1.dataBlock.dataBuf.length
    let s2 := { s1 with
      dataBuf := s1.dataBuf ++ s1.dataBlock.dataBuf
      dataBlock := blockClear s1.dataBlock
      curBlockLength := currBlockLength
      curBlockOffset := prevLength - currBlockLength }
    let currIndex : IndexM :=
      ⟨goData s2.dataBlock.firstKey, goData s2.dataBlock.lastKey,
       s2.curBlockOffset, s2.curBlockLength⟩
    let s3 := { s2 with
      index := s2.index ++ [currIndex]
      indexBlock := blockIndexAdd s2.indexBlock currIndex }
    { s3 with dataBuf := s3.dataBuf ++ s3.dataBlock.dataBuf }

/-- `SSTWriter.tryRotateDataBlock`: rotate only when the entry count
exceeds `BlockSize`. -/
def tryRotateDataBlock (s : SSTWriterM) : SSTWriterM :=
  if s.dataBlock.entriesCnt ≤ s.blockSize then s else mustRotateDataBlock s

/-- `SSTWriter.Add`. -/
def sstAdd (s : SSTWriterM) (key value : List Nat) : SSTWriterM :=
  let s1 := { s with dataBlock := blockAdd s.dataBlock key value }
  let s2 := { s1 with filter := bloomAdd s1.filter key }
  tryRotateDataBlock s2

def sstAddAll (s : SSTWriterM) (entries : List (List Nat × List Nat)) : SSTWriterM :=
  entries.foldl (fun s e => sstAdd s e.1 e.2) s

/-- `SSTWriter.Flush` up to (but excluding) the file writes: final
rotation, then the three section buffers. -/
def sstFlushState (s : SSTWriterM) : SSTWriterM :=
  let s1 := mustRotateDataBlock s
  { s1 with
    dataBuf := s1.dataBuf ++ s1.dataBlock.dataBuf
    indexBuf := s1.indexBuf ++ s1.indexBlock.dataBuf
    filterBuf := s1.filterBuf ++ s1.filterBlock.dataBuf }

/-- The bytes `SSTWriter.Flush` writes to a fresh file: the three
sections followed by the footer of their `uint32` lengths. -/
def sstFileOf (s : SSTWriterM) : List Nat :=
  let s1 := sstFlushState s
  s1.dataBuf ++ s1.indexBuf ++ s1.filterBuf ++
    u32be s1.dataBuf.length ++ u32be s1.indexBuf.length ++ u32be s1.filterBuf.length

/-- Complete writer run: `NewSSTWriter`, all `Add`s, `Flush`. -/
def sstWriterFile (blockSize : Nat) (entries : List (List Nat × List Nat)) : List Nat :=
  sstFileOf (sstAddAll (newSSTWriter blockSize) entries)

/-! ## Byte-buffer read primitives (Go `bytes.Reader` / `binary.Read`) -/

/-- `bytes.Reader.Read` into a buffer of `n` zero bytes: if the reader
is exhausted it returns `io.EOF` (even for `n = 0`); otherwise it
copies what is available, leaving the rest of the destination zero, and
reports no error. -/
def goRead (buf : List Nat) (n : Nat) : Except GErr (List Nat × List Nat) :=
  if buf.length = 0 then .error .eofErr
  else .ok (buf.take n ++ List.replicate (n - buf.length) 0, buf.drop n)

/-- `binary.Read` of an `n`-byte value (`io.ReadFull` semantics):
`io.EOF` when nothing is available, `io.ErrUnexpectedEOF` when only
part is. -/
def readExactN (buf : List Nat) (n : Nat) : Except GErr (List Nat × List Nat) :=
  if buf.length = 0 ∧ 0 < n then .error .eofErr
  else if buf.length < n then .error .unexpectedEofErr
  else .ok (buf.take n, buf.drop n)

/-- `binary.Read` of a big-endian `uint32`. -/
def readU32E (buf : List Nat) : Except GErr (Nat × List Nat) :=
  match readExactN buf 4 with
  | .error e => .error e
  | .ok (bs, rest) => .ok (beU32At bs, rest)

/-- `binary.Read` of a big-endian `int64` (non-negative range). -/
def readU64E (buf : List Nat) : Except GErr (Nat × List Nat) :=
  match readExactN buf 8 with
  | .error e => .error e
  | .ok (bs, rest) => .ok (beU64At bs, rest)

/-! ## SST reader (src/inner/sst/sst_reader.go) -/

/-- The parse loop of `loadDataBlock`: each iteration reads two `uint32`
lengths via `binary.Read` (no EOF tolerance) and the key/value via
`bytes.Reader.Read` (partial reads tolerated, zero-fill; error only on
an exhausted reader).  Values are materialized with `make([]byte, n)`,
hence non-nil — recorded here as `some`. -/
def parseKVs (fuel : Nat) (buf : List Nat) : Except GErr (List (List Nat × GoB)) :=
  match fuel with
  | 0 => .error .eofErr
  | fuel + 1 =>
      if buf.length = 0 then .ok []
      else
        match readU32E buf with
        | .error e => .error e
        | .ok (kl, b1) =>
            match readU32E b1 with
            | .error e => .error e
            | .ok (vl, b2) =>
                match goRead b2 kl with
                | .error e => .error e
                | .ok (key, b3) =>
                    match goRead b3 vl with
                    | .error e => .error e
                    | .ok (value, b4) =>
                        match parseKVs fuel b4 with
                        | .error e => .error e
                        | .ok rest => .ok ((key, some value) :: rest)

/-- The parse loop of `loadIndex`: the first `binary.Read` tolerates
`io.EOF` (breaks), everything else propagates errors. -/
def parseIndexes (fuel : Nat) (buf : List Nat) : Except GErr (List IndexM) :=
  match fuel with
  | 0 => .error .eofErr
  | fuel + 1 =>
      if buf.length = 0 then .ok []
      else
        match readU32E buf with
        | .error .eofErr => .ok []
        | .error e => .error e
        | .ok (skl, b1) =>
            match readU32E b1 with
            | .error e => .error e
            | .ok (ekl, b2) =>
                match goRead b2 skl with
                | .error e => .error e
                | .ok (sk, b3) =>
                    match goRead b3 ekl with
                    | .error e => .error e
                    | .ok (ek, b4) =>
                        match readU64E b4 with
                        | .error e => .error e
                        | .ok (off, b5) =>
                            match readU64E b5 with
                            | .error e => .error e
                            | .ok (len, b6) =>
                                match parseIndexes fuel b6 with
                                | .error e => .error e
                                | .ok rest => .ok (⟨sk, ek, off, len⟩ :: rest)

/-- Replace-or-append into the reader's filter map. -/
def filterMapSet (l : List (Nat × BloomF)) (k : Nat) (v : BloomF) :
    List (Nat × BloomF) :=
  match l with
  | [] => [(k, v)]
  | e :: rest => if e.1 = k then (k, v) :: rest else e :: filterMapSet rest k v

/-- The parse loop of `loadFilter`: both leading `binary.Read`s tolerate
`io.EOF`; a zero or over-long filter length fails with
`ErrSSTReaderFilter`; the filter is rebuilt via the (spec-modelled)
bloom `Load`, which accepts any bytes. -/
def parseFilters (fuel : Nat) (buf : List Nat) (acc : List (Nat × BloomF)) :
    Except GErr (List (Nat × BloomF)) :=
  match fuel with
  | 0 => .error .eofErr
  | fuel + 1 =>
      if buf.length = 0 then .ok acc
      else
        match readU64E buf with
        | .error .eofErr => .ok acc
        | .error e => .error e
        | .ok (blockLength, b1) =>
            match readU32E b1 with
            | .error .eofErr => .ok acc
            | .error e => .error e
            | .ok (filterLen, b2) =>
                if filterLen = 0 ∨ b2.length < filterLen then .error .sstReaderFilter
                else
                  match goRead b2 filterLen with
                  | .error e => .error e
                  | .ok (fbytes, b3) =>
                      parseFilters fuel b3
                        (filterMapSet acc blockLength (bloomLoad (newBloomFilter 1024 3) fbytes))

/-- In-memory `SSTReader` after a successful open; `file` stands for
the open file handle. -/
structure SSTReaderM where
  file : List Nat
  fileSize : Nat
  dataLength : Nat
  indexLength : Nat
  filterLength : Nat
  dataOffset : Nat
  indexOffset : Nat
  filterOffset : Nat
  index : List IndexM
  filterMap : List (Nat × BloomF)
  kvList : List (List Nat × GoB)
  deriving DecidableEq

/-- `os.File.ReadAt` of `n` bytes at `off`: errors unless the file holds
`n` bytes starting there. -/
def readAt (file : List Nat) (off n : Nat) : Except GErr (List Nat) :=
  if file.length < off + n then .error .eofErr
  else .ok ((file.drop off).take n)

/-- `NewSSTReader`: footer check (the sum is computed in `uint32`, so
mod `2 ^ 32`), then index, data and filter sections, in that order. -/
def newSSTReader (file : List Nat) : Except GErr SSTReaderM :=
  if file.length < 12 then .error .invalidSSTFormat
  else
    let footer := file.drop (file.length - 12)
    let dataLength := beU32At footer
    let indexLength := beU32At (footer.drop 4)
    let filterLength := beU32At (footer.drop 8)
    if (dataLength + indexLength + filterLength + 12) % 2 ^ 32 ≠ file.length then
      .error .invalidSSTFormat
    else
      let dataOffset := 0
      let indexOffset := dataLength
      let filterOffset := dataLength + indexLength
      match readAt file indexOffset indexLength with
      | .error e => .error e
      | .ok indexData =>
          match parseIndexes (indexData.length + 1) indexData with
          | .error e => .error e
          | .ok index =>
              match readAt file dataOffset dataLength with
              | .error e => .error e
              | .ok blockData =>
                  match parseKVs (blockData.length + 1) blockData with
                  | .error e => .error e
                  | .ok kvList =>
                      match readAt file filterOffset filterLength with
                      | .error e => .error e
                      | .ok filterData =>
                          match parseFilters (filterData.length + 1) filterData [] with
                          | .error e => .error e
                          | .ok filterMap =>
                              .ok ⟨file, file.length, dataLength, indexLength,
                                   filterLength, dataOffset, indexOffset, filterOffset,
                                   index, filterMap, kvList⟩

/-- `bytes.Compare` (lexicographic, shorter prefix first). -/
def lexCompare : List Nat → List Nat → Ordering
  | [], [] => .eq
  | [], _ :: _ => .lt
  | _ :: _, [] => .gt
  | a :: as, b :: bs =>
      if a < b then .lt else if b < a then .gt else lexCompare as bs

/-- `searchInBlock`: scan one block; the first `binary.Read` tolerates
`io.EOF`, key/value reads use `bytes.Reader.Read`, the value skip uses
`Seek` (clamped drop). -/
def searchInBlock (fuel : Nat) (block : List Nat) (searchKey : List Nat) :
    Except GErr (List Nat) :=
  match fuel with
  | 0 => .error .eofErr
  | fuel + 1 =>
      if block.length = 0 then .error .keyNotFound
      else
        match readU32E block with
        | .error .eofErr => .error .keyNotFound
        | .error e => .error e
        | .ok (kl, b1) =>
            match readU32E b1 with
            | .error e => .error e
            | .ok (vl, b2) =>
                match goRead b2 kl with
                | .error e => .error e
                | .ok (key, b3) =>
                    if key = searchKey then
                      match goRead b3 vl with
                      | .error e => .error e
                      | .ok (value, _) => .ok value
                    else searchInBlock fuel (b3.drop vl) searchKey

/-- The index-directed loop of `SSTReader.Get`: try each index entry
whose `[startKey, endKey]` range contains the key, gated by the bloom
filter looked up under the entry's `Length`. -/
def readerGetIndexLoop (r : SSTReaderM) (key : List Nat) :
    List IndexM → Except GErr (Option (List Nat))
  | [] => .ok none
  | idx :: rest =>
      if lexCompare key idx.startKey ≠ .lt ∧ lexCompare key idx.endKey ≠ .gt then
        let filt := r.filterMap.find? (fun e => e.1 = idx.length)
        let skip : Bool := match filt with
          | some f => !bloomContains f.2 key
          | none => false
        if skip then readerGetIndexLoop r key rest
        else
          match readAt r.file (r.dataOffset + idx.offset) idx.length with
          | .error e => .error e
          | .ok block =>
              match searchInBlock (block.length + 1) block key with
              | .ok v => .ok (some v)
              | .error .keyNotFound => readerGetIndexLoop r key rest
              | .error e => .error e
      else readerGetIndexLoop r key rest

/-- The full-data-section fallback scan of `SSTReader.Get`. -/
def scanDataLoop (fuel : Nat) (buf : List Nat) (key : List Nat) :
    Except GErr (List Nat) :=
  match fuel with
  | 0 => .error .eofErr
  | fuel + 1 =>
      if buf.length = 0 then .error .keyNotFound
      else
        match readU32E buf with
        | .error .eofErr => .error .keyNotFound
        | .error e => .error e
        | .ok (kl, b1) =>
            match readU32E b1 with
            | .error e => .error e
            | .ok (vl, b2) =>
                match goRead b2 kl with
                | .error e => .error e
                | .ok (currentKey, b3) =>
                    if currentKey = key then
                      match goRead b3 vl with
                      | .error e => .error e
                      | .ok (value, _) => .ok value
                    else scanDataLoop fuel (b3.drop vl) key

/-- `SSTReader.Get`: index-directed search, then the full fallback scan
of the data section. -/
def readerGet (r : SSTReaderM) (key : List Nat) : Except GErr (List Nat) :=
  match readerGetIndexLoop r key r.index with
  | .error e => .error e
  | .ok (some v) => .ok v
  | .ok none =>
      match readAt r.file r.dataOffset r.dataLength with
      | .error e => .error e
      | .ok dataBytes => scanDataLoop (dataBytes.length + 1) dataBytes key

/-- The sequence of pairs yielded by `SSTIterator.Next`: reads pairs
from the data section until it is exhausted or any read step fails
(the iterator then reports `false` and stops yielding). -/
def iterSeq (fuel : Nat) (buf : List Nat) : List (List Nat × List Nat) :=
  match fuel with
  | 0 => []
  | fuel + 1 =>
      if buf.length = 0 then []
      else
        match readU32E buf with
        | .error _ => []
        | .ok (kl, b1) =>
            match readU32E b1 with
            | .error _ => []
            | .ok (vl, b2) =>
                match goRead b2 kl with
                | .error _ => []
                | .ok (key, b3) =>
                    match goRead b3 vl with
                    | .error _ => []
                    | .ok (value, b4) => (key, value) :: iterSeq fuel b4

/-- `SSTReader.GetIterator` followed by draining the iterator. -/
def readerIterAll (r : SSTReaderM) : Except GErr (List (List Nat × List Nat)) :=
  match readAt r.file r.dataOffset r.dataLength with
  | .error e => .error e
  | .ok data => .ok (iterSeq (data.length + 1) data)

/-! ## Recovery loading (src/inner/load.go) -/

/-- `strings.HasSuffix` on character lists. -/
def listEndsWith (l sfx : List Char) : Bool :=
  l.drop (l.length - sfx.length) = sfx

/-- `strings.HasPrefix` on character lists. -/
def listStartsWith (l pfx : List Char) : Bool :=
  l.take pfx.length = pfx

/-- Digits of a decimal string; `none` if empty or any non-digit.
Overflow of the 64-bit range is not modelled (all inputs of interest
are small). -/
def parseDigits : List Char → Option Nat
  | [] => none
  | cs => cs.foldl (fun acc c =>
      match acc with
      | none => none
      | some n => if c.isDigit then some (n * 10 + (c.toNat - 48)) else none)
      (some 0)

/-- `strconv.Atoi`: optional sign, then decimal digits. -/
def goAtoi (s : List Char) : Except GErr Int :=
  match s with
  | '+' :: rest =>
      match parseDigits rest with
      | some n => .ok (Int.ofNat n)
      | none => .error .numParseErr
  | '-' :: rest =>
      match parseDigits rest with
      | some n => .ok (-(Int.ofNat n))
      | none => .error .numParseErr
  | _ =>
      match parseDigits s with
      | some n => .ok (Int.ofNat n)
      | none => .error .numParseErr

/-- `strconv.ParseUint(s, 10, 32)`: digits only, range-checked. -/
def goParseUint32 (s : List Char) : Except GErr Nat :=
  match parseDigits s with
  | some n => if n < 2 ^ 32 then .ok n else .error .numParseErr
  | none => .error .numParseErr

/-- `parseSSTFileName` (on the name with `.sst` already trimmed):
exactly two `_`-separated parts, `Atoi` level, `ParseUint` seq.  The
`strconv` errors are returned as-is, hence `numParseErr`, not
`sstCorrupted`. -/
def parseSSTFileName (fileName : List Char) : Except GErr (Int × Nat) :=
  let parts := fileName.splitOn '_'
  if parts.length ≠ 2 then .error .sstCorrupted
  else
    match goAtoi (parts.headD []) with
    | .error e => .error e
    | .ok level =>
        match goParseUint32 (parts.getD 1 []) with
        | .error e => .error e
        | .ok seq => .ok (level, seq)

/-- Insertion sort with a boolean `le`, standing in for `sort.Slice`. -/
def insSorted (le : α → α → Bool) (x : α) : List α → List α
  | [] => [x]
  | y :: ys => if le x y then x :: y :: ys else y :: insSorted le x ys

def insSortBy (le : α → α → Bool) : List α → List α
  | [] => []
  | x :: xs => insSorted le x (insSortBy le xs)

/-- Parsed entry of the SST directory listing. -/
structure SSTFileM where
  level : Int
  seq : Nat
  name : List Char
  deriving DecidableEq

/-- First phase of `loadSST`: every directory entry must end in `.sst`
(else `ErrSSTCorrupted`) and its trimmed name must parse. -/
def loadSSTPhase1 : List (List Char) → Except GErr (List SSTFileM)
  | [] => .ok []
  | name :: rest =>
      if ¬listEndsWith name ['.', 's', 's', 't'] then .error .sstCorrupted
      else
        match parseSSTFileName (name.take (name.length - 4)) with
        | .error e => .error e
        | .ok (level, seq) =>
            match loadSSTPhase1 rest with
            | .error e => .error e
            | .ok files => .ok (⟨level, seq, name⟩ :: files)

/-- Outcome of recovery-time SST loading; `indexOutOfRange` records a
Go runtime panic (slice index out of range). -/
inductive LoadRes where
  | ok (levels : List (List NodeM))
  | err (e : GErr)
  | indexOutOfRange
  deriving DecidableEq

/-- Second phase of `loadSST`: open each file with `NewSSTReader`, wrap
it in a node (`NewNode` reads `index[0]` for `MinKey`, panicking on an
empty index), and append to `nodes[level]` — with no bounds check on
`level` in the source, so a level outside `[0, levelSize)` is a panic. -/
def loadSSTPhase2 (fs : List (List Char × List Nat)) :
    List SSTFileM → List (List NodeM) → LoadRes
  | [], levels => .ok levels
  | f :: rest, levels =>
      let bytes := match fs.find? (fun e => e.1 = f.name) with
        | some e => e.2
        | none => []
      match newSSTReader bytes with
      | .error e => .err e
      | .ok r =>
          if r.index.length = 0 then .indexOutOfRange
          else
            let node : NodeM := ⟨f.level, f.seq, r.kvList⟩
            if 0 ≤ f.level ∧ f.level.toNat < levels.length then
              loadSSTPhase2 fs rest
                (levels.set f.level.toNat (levels.getD f.level.toNat [] ++ [node]))
            else .indexOutOfRange

/-- `loadSST` over a directory given as a list of (name, bytes) pairs,
with the level slices pre-allocated by `NewLsmTree` (`LevelSize`, at
least 1). -/
def loadSSTModel (levelSize : Nat) (fs : List (List Char × List Nat)) : LoadRes :=
  let levels := List.replicate levelSize ([] : List NodeM)
  if fs.length = 0 then .ok levels
  else
    match loadSSTPhase1 (fs.map (·.1)) with
    | .error e => .err e
    | .ok files =>
        let sorted := insSortBy
          (fun a b => a.level < b.level ∨ (a.level = b.level ∧ a.seq ≤ b.seq)) files
        loadSSTPhase2 fs sorted levels

/-- `loadWAL` filename validation: `wal-<id>.log`, `ParseUint` id (its
error propagates as-is). -/
def parseWalName (name : List Char) : Except GErr Nat :=
  if ¬(listStartsWith name ['w', 'a', 'l', '-'] ∧ listEndsWith name ['.', 'l', 'o', 'g']) then
    .error .walCorrupted
  else
    let trimmed := name.drop 4
    goParseUint32 (trimmed.take (trimmed.length - 4))

/-- The `walId` the engine holds after `loadWAL`: 0 when the directory
is empty, else the largest recovered id (last of the ascending sort). -/
def loadWalIdModel (names : List (List Char)) : Except GErr Nat :=
  if names.length = 0 then .ok 0
  else
    match names.mapM parseWalName with
    | .error e => .error e
    | .ok ids => .ok ((insSortBy (fun a b => a ≤ b) ids).getLastD 0)

/-- The id of the fresh writable WAL `NewLsmTree` opens after recovery:
the recovered id is incremented only when it is non-zero. -/
def newLsmTreeFreshWalId (names : List (List Char)) : Except GErr Nat :=
  match loadWalIdModel names with
  | .error e => .error e
  | .ok walId => .ok (if walId ≠ 0 then walId + 1 else walId)


/-! ## Verification predicates (specification-side, not source code) -/

/-- The on-disk encoding of one kv entry (used to state data-section
facts; `Block.Add` produces exactly this byte shape). -/
def encKV (k v : List Nat) : List Nat :=
  u32be k.length ++ u32be v.length ++ k ++ v

/-- The concatenated encodings of a list of entries. -/
def joinKV (entries : List (List Nat × List Nat)) : List Nat :=
  (entries.map fun e => encKV e.1 e.2).flatten

/-- Well-formedness of a filter section: a concatenation of
`{i64 blockLength, u32 filterLen, filterBytes}` frames whose filter
payloads are the 128-byte bloom bit arrays. -/
def FilterWF (buf : List Nat) : Prop :=
  ∃ l : List (Nat × List Nat),
    buf = (l.map fun p => i64be p.1 ++ u32be p.2.length ++ p.2).flatten
    ∧ ∀ p ∈ l, p.2.length = 128

/-- The writer-state invariant: index entries have empty keys and zero
offsets, the index block holds their encodings, the filter block is a
well-formed filter section, the live bloom filter has 128 bit-array
bytes, and the section buffers are untouched before `Flush`. -/
def WInv (s : SSTWriterM) : Prop :=
  (∀ idx ∈ s.index, idx.startKey = [] ∧ idx.endKey = [] ∧ idx.offset = 0)
  ∧ s.indexBlock.dataBuf = (s.index.map encodeIndex).flatten
  ∧ FilterWF s.filterBlock.dataBuf
  ∧ s.filter.bits.length = 128
  ∧ s.filter.m = 1024
  ∧ s.indexBuf = []
  ∧ s.filterBuf = []

/-! # Lemmas -/

/-! ## Byte-level round trips -/

theorem u32be_len (n : Nat) : (u32be n).length = 4 := rfl

theorem i64be_len (n : Nat) : (i64be n).length = 8 := rfl

theorem u32be_bytes_lt (n : Nat) : ∀ b ∈ u32be n, b < 256 := by
  simp only [u32be, List.mem_cons, List.not_mem_nil, or_false]
  rintro b (rfl | rfl | rfl | rfl) <;> omega

theorem beU32At_u32be (n : Nat) (h : n < 2 ^ 32) (rest : List Nat) :
    beU32At (u32be n ++ rest) = n := by
  simp only [u32be, List.cons_append, List.nil_append, beU32At]
  omega

theorem beU64At_i64be (n : Nat) (h : n < 2 ^ 64) (rest : List Nat) :
    beU64At (i64be n ++ rest) = n := by
  simp only [i64be, List.cons_append, List.nil_append, beU64At]
  omega

theorem readExactN_append (pfx rest : List Nat) (n : Nat) (h : pfx.length = n) :
    readExactN (pfx ++ rest) n = .ok (pfx, rest) := by
  subst h
  unfold readExactN
  rw [if_neg, if_neg]
  · rw [List.take_left, List.drop_left]
  · simp only [List.length_append, not_lt]
    omega
  · simp only [List.length_append]
    omega

theorem readU32E_u32be (n : Nat) (h : n < 2 ^ 32) (rest : List Nat) :
    readU32E (u32be n ++ rest) = .ok (n, rest) := by
  unfold readU32E
  rw [readExactN_append _ _ _ (u32be_len n)]
  show Except.ok (beU32At (u32be n), rest) = Except.ok (n, rest)
  rw [show beU32At (u32be n) = beU32At (u32be n ++ []) by simp, beU32At_u32be n h []]

theorem readU64E_i64be (n : Nat) (h : n < 2 ^ 64) (rest : List Nat) :
    readU64E (i64be n ++ rest) = .ok (n, rest) := by
  unfold readU64E
  rw [readExactN_append _ _ _ (i64be_len n)]
  show Except.ok (beU64At (i64be n), rest) = Except.ok (n, rest)
  rw [show beU64At (i64be n) = beU64At (i64be n ++ []) by simp, beU64At_i64be n h []]

theorem goRead_exact (pfx rest : List Nat) (h : 0 < pfx.length + rest.length) :
    goRead (pfx ++ rest) pfx.length = .ok (pfx, rest) := by
  unfold goRead
  rw [if_neg (by simp only [List.length_append]; omega)]
  rw [List.take_left, List.drop_left,
    Nat.sub_eq_zero_of_le (by simp only [List.length_append]; omega)]
  simp

/-! ## CRC-32 single-bit-flip sensitivity -/

theorem crcPoly_lt : crcPoly < 2 ^ 32 := by norm_num [crcPoly]

theorem crcStep_lt {r : Nat} (h : r < 2 ^ 32) : crcStep r < 2 ^ 32 := by
  unfold crcStep
  split
  · exact Nat.xor_lt_two_pow (by omega) crcPoly_lt
  · omega

theorem crcStep_inj {r1 r2 : Nat} (h1 : r1 < 2 ^ 32) (h2 : r2 < 2 ^ 32)
    (he : crcStep r1 = crcStep r2) : r1 = r2 := by
  have hp31 : crcPoly.testBit 31 = true := by decide
  unfold crcStep at he
  by_cases c1 : r1 % 2 = 1 <;> by_cases c2 : r2 % 2 = 1 <;>
    simp only [c1, c2, if_true, if_false, reduceIte] at he
  · have := Nat.xor_left_inj.mp he
    omega
  · exfalso
    have hb : ((r1 / 2) ^^^ crcPoly).testBit 31 = true := by
      rw [Nat.testBit_xor, Nat.testBit_eq_false_of_lt (show r1 / 2 < 2 ^ 31 by omega), hp31]
      rfl
    rw [he] at hb
    rw [Nat.testBit_eq_false_of_lt (show r2 / 2 < 2 ^ 31 by omega)] at hb
    exact Bool.noConfusion hb
  · exfalso
    have hb : ((r2 / 2) ^^^ crcPoly).testBit 31 = true := by
      rw [Nat.testBit_xor, Nat.testBit_eq_false_of_lt (show r2 / 2 < 2 ^ 31 by omega), hp31]
      rfl
    rw [← he] at hb
    rw [Nat.testBit_eq_false_of_lt (show r1 / 2 < 2 ^ 31 by omega)] at hb
    exact Bool.noConfusion hb
  · omega

theorem crcStep8_lt {r : Nat} (h : r < 2 ^ 32) : crcStep8 r < 2 ^ 32 := by
  unfold crcStep8
  exact crcStep_lt (crcStep_lt (crcStep_lt (crcStep_lt
    (crcStep_lt (crcStep_lt (crcStep_lt (crcStep_lt h)))))))

theorem crcStep8_inj {r1 r2 : Nat} (h1 : r1 < 2 ^ 32) (h2 : r2 < 2 ^ 32)
    (he : crcStep8 r1 = crcStep8 r2) : r1 = r2 := by
  unfold crcStep8 at he
  have s1 := fun {r} (h : r < 2 ^ 32) => crcStep_lt h
  exact crcStep_inj h1 h2 (crcStep_inj (s1 h1) (s1 h2)
    (crcStep_inj (s1 (s1 h1)) (s1 (s1 h2))
    (crcStep_inj (s1 (s1 (s1 h1))) (s1 (s1 (s1 h2)))
    (crcStep_inj (s1 (s1 (s1 (s1 h1)))) (s1 (s1 (s1 (s1 h2))))
    (crcStep_inj (s1 (s1 (s1 (s1 (s1 h1))))) (s1 (s1 (s1 (s1 (s1 h2)))))
    (crcStep_inj (s1 (s1 (s1 (s1 (s1 (s1 h1)))))) (s1 (s1 (s1 (s1 (s1 (s1 h2))))))
    (crcStep_inj (s1 (s1 (s1 (s1 (s1 (s1 (s1 h1)))))))
      (s1 (s1 (s1 (s1 (s1 (s1 (s1 h2))))))) he)))))))

theorem crcByte_lt {r b : Nat} (hr : r < 2 ^ 32) (hb : b < 2 ^ 32) :
    crcByte r b < 2 ^ 32 :=
  crcStep8_lt (Nat.xor_lt_two_pow hr hb)

theorem crcByte_inj_reg {r1 r2 b : Nat} (h1 : r1 < 2 ^ 32) (h2 : r2 < 2 ^ 32)
    (hb : b < 2 ^ 32) (he : crcByte r1 b = crcByte r2 b) : r1 = r2 := by
  unfold crcByte at he
  have := crcStep8_inj (Nat.xor_lt_two_pow h1 hb) (Nat.xor_lt_two_pow h2 hb) he
  exact Nat.xor_left_inj.mp this

theorem crcByte_ne_byte {r b1 b2 : Nat} (hr : r < 2 ^ 32) (hb1 : b1 < 2 ^ 32)
    (hb2 : b2 < 2 ^ 32) (hne : b1 ≠ b2) : crcByte r b1 ≠ crcByte r b2 := by
  intro he
  unfold crcByte at he
  have := crcStep8_inj (Nat.xor_lt_two_pow hr hb1) (Nat.xor_lt_two_pow hr hb2) he
  exact hne (Nat.xor_right_inj.mp this)

theorem crcFold_lt {r : Nat} {l : List Nat} (hr : r < 2 ^ 32)
    (hl : ∀ b ∈ l, b < 2 ^ 32) : crcFold r l < 2 ^ 32 := by
  induction l generalizing r with
  | nil => exact hr
  | cons b rest ih =>
      exact ih (crcByte_lt hr (hl b (List.mem_cons_self b _))) fun x hx => hl x (List.mem_cons_of_mem _ hx)

theorem crcFold_inj {r1 r2 : Nat} {l : List Nat} (h1 : r1 < 2 ^ 32) (h2 : r2 < 2 ^ 32)
    (hl : ∀ b ∈ l, b < 2 ^ 32) (he : crcFold r1 l = crcFold r2 l) : r1 = r2 := by
  induction l generalizing r1 r2 with
  | nil => exact he
  | cons b rest ih =>
      have hb := hl b (List.mem_cons_self b _)
      have := ih (crcByte_lt h1 hb) (crcByte_lt h2 hb)
        (fun x hx => hl x (List.mem_cons_of_mem _ hx)) he
      exact crcByte_inj_reg h1 h2 hb this

theorem crc32_lt {l : List Nat} (hl : ∀ b ∈ l, b < 2 ^ 32) : crc32 l < 2 ^ 32 :=
  Nat.xor_lt_two_pow (crcFold_lt (by norm_num) hl) (by norm_num)

theorem crc32_flip_ne (pre suf : List Nat) (b1 b2 : Nat) (hne : b1 ≠ b2)
    (hb1 : b1 < 2 ^ 32) (hb2 : b2 < 2 ^ 32)
    (hpre : ∀ x ∈ pre, x < 2 ^ 32) (hsuf : ∀ x ∈ suf, x < 2 ^ 32) :
    crc32 (pre ++ b1 :: suf) ≠ crc32 (pre ++ b2 :: suf) := by
  intro he
  unfold crc32 at he
  have he2 := Nat.xor_left_inj.mp he
  unfold crcFold at he2
  rw [List.foldl_append, List.foldl_append] at he2
  simp only [List.foldl_cons] at he2
  have hr : List.foldl crcByte 0xFFFFFFFF pre < 2 ^ 32 :=
    crcFold_lt (by norm_num) hpre
  have := crcFold_inj (crcByte_lt hr hb1) (crcByte_lt hr hb2) hsuf he2
  exact crcByte_ne_byte hr hb1 hb2 hne this

/-! ## Byte-flip decomposition -/

theorem take_getD_drop (l : List Nat) (i : Nat) (h : i < l.length) :
    l.take i ++ l.getD i 0 :: l.drop (i + 1) = l := by
  rw [List.getD_eq_getElem l 0 h, ← List.drop_eq_getElem_cons h, List.take_append_drop]

theorem flipAt_eq_parts (l : List Nat) (i j : Nat) :
    flipAt l i j = l.take i ++ (l.getD i 0 ^^^ 2 ^ j) :: l.drop (i + 1) := by
  simp [flipAt]

theorem flipAt_append_left (xs ys : List Nat) (i j : Nat) (h : i < xs.length) :
    flipAt (xs ++ ys) i j = flipAt xs i j ++ ys := by
  unfold flipAt
  rw [List.take_append_eq_append_take, Nat.sub_eq_zero_of_le (le_of_lt h),
    List.drop_append_eq_append_drop, Nat.sub_eq_zero_of_le h,
    List.getD_append _ _ _ _ h]
  simp [List.append_assoc]

theorem flipAt_append_right (xs ys : List Nat) (i j : Nat) (h : xs.length ≤ i) :
    flipAt (xs ++ ys) i j = xs ++ flipAt ys (i - xs.length) j := by
  unfold flipAt
  rw [List.take_append_eq_append_take, List.take_of_length_le h,
    List.drop_append_eq_append_drop, List.drop_eq_nil_of_le (by omega),
    List.getD_append_right _ _ _ _ h]
  simp only [List.nil_append]
  rw [show i + 1 - xs.length = i - xs.length + 1 by omega]
  simp [List.append_assoc]

theorem flipAt_length (l : List Nat) (i j : Nat) (h : i < l.length) :
    (flipAt l i j).length = l.length := by
  simp only [flipAt, List.length_append, List.length_take, List.length_drop,
    List.length_cons, List.length_nil]
  omega

theorem decodeRecord_frame (rt kl vl stored : Nat) (body : List Nat)
    (hbody : body.length = kl + vl)
    (hkl : kl ≤ 10 * 1024 * 1024) (hvl : vl ≤ 100 * 1024 * 1024)
    (hstored : stored < 2 ^ 32) :
    decodeRecord (rt :: u32be kl ++ u32be vl ++ body ++ u32be stored)
      = if stored ≠ crc32 (rt :: u32be kl ++ u32be vl ++ body) then .error .crcMismatch
        else .ok ⟨rt, body.take kl, (body.drop kl).take vl⟩ := by
  have hklb : kl < 2 ^ 32 := by omega
  have hvlb : vl < 2 ^ 32 := by omega
  suffices hmain : ∀ d : List Nat, d = rt :: u32be kl ++ u32be vl ++ body ++ u32be stored →
      decodeRecord d
        = if stored ≠ crc32 (rt :: u32be kl ++ u32be vl ++ body) then .error .crcMismatch
          else .ok ⟨rt, body.take kl, (body.drop kl).take vl⟩ by
    exact hmain _ rfl
  intro d hd
  have hlen : d.length = 13 + kl + vl := by
    simp only [hd, List.length_cons, List.length_append, u32be_len, hbody]
    omega
  have hhead : d.headD 0 = rt := by simp [hd]
  have h1 : d.drop 1 = u32be kl ++ (u32be vl ++ body ++ u32be stored) := by
    simp [hd]
  have h2 : beU32At (d.drop 1) = kl := by
    rw [h1, beU32At_u32be kl hklb]
  have h5 : d.drop 5 = u32be vl ++ (body ++ u32be stored) := by
    have hdd : d.drop 5 = (d.drop 1).drop 4 := by
      rw [List.drop_drop]
    rw [hdd, h1, show (4 : Nat) = (u32be kl).length from (u32be_len kl).symm,
      List.drop_left]
    simp [List.append_assoc]
  have h6 : beU32At (d.drop 5) = vl := by
    rw [h5, beU32At_u32be vl hvlb]
  have h9 : d.drop 9 = body ++ u32be stored := by
    have hdd : d.drop 9 = (d.drop 5).drop 4 := by rw [List.drop_drop]
    rw [hdd, h5, show (4 : Nat) = (u32be vl).length from (u32be_len vl).symm,
      List.drop_left]
  have hkey : (d.drop 9).take kl = body.take kl := by
    rw [h9, List.take_append_eq_append_take,
      Nat.sub_eq_zero_of_le (by omega : kl ≤ body.length), List.take_zero,
      List.append_nil]
  have h9kl : d.drop (9 + kl) = body.drop kl ++ u32be stored := by
    have hdd : d.drop (9 + kl) = (d.drop 9).drop kl := by rw [List.drop_drop]
    rw [hdd, h9, List.drop_append_eq_append_drop,
      Nat.sub_eq_zero_of_le (by omega : kl ≤ body.length), List.drop_zero]
  have hdropklLen : (body.drop kl).length = vl := by
    simp [hbody]
  have hval : (d.drop (9 + kl)).take vl = (body.drop kl).take vl := by
    rw [h9kl, List.take_append_eq_append_take,
      Nat.sub_eq_zero_of_le (by omega : vl ≤ (body.drop kl).length), List.take_zero,
      List.append_nil]
  have hcrcdata : d.drop (9 + kl + vl) = u32be stored := by
    have hdd : d.drop (9 + kl + vl) = (d.drop (9 + kl)).drop vl := by
      rw [List.drop_drop]
    rw [hdd, h9kl, List.drop_append_eq_append_drop,
      List.drop_eq_nil_of_le (by omega : (body.drop kl).length ≤ vl),
      Nat.sub_eq_zero_of_le (by omega : vl ≤ (body.drop kl).length), List.drop_zero,
      List.nil_append]
  have hstored' : beU32At (d.drop (9 + kl + vl)) = stored := by
    rw [hcrcdata, show u32be stored = u32be stored ++ [] by simp,
      beU32At_u32be stored hstored]
  have htake : d.take (9 + kl + vl) = rt :: u32be kl ++ u32be vl ++ body := by
    have hsplit : d = (rt :: u32be kl ++ u32be vl ++ body) ++ u32be stored := by
      simp [hd]
    have hplen : (rt :: u32be kl ++ u32be vl ++ body).length = 9 + kl + vl := by
      simp only [List.length_cons, List.length_append, u32be_len, hbody]
      omega
    rw [hsplit, ← hplen, List.take_left]
  have hcrclen : (d.drop (9 + kl + vl)).length = 4 := by
    rw [hcrcdata]; exact u32be_len stored
  unfold decodeRecord
  rw [if_neg (by omega : ¬d.length < 9)]
  simp only [hhead, h2, h6, hstored', htake, hkey, hval, hcrclen]
  rw [if_neg (by omega : ¬(10 * 1024 * 1024 < kl ∨ 100 * 1024 * 1024 < vl))]
  rw [if_neg (by rw [hlen]
                 have he : 9 + kl + vl + 4 = 13 + kl + vl := by omega
                 rw [he]
                 exact Nat.lt_irrefl _)]
  rw [if_neg (by omega : ¬(4 : Nat) < 4)]

theorem pow2j_lt_32 {j : Nat} (h : j < 8) : 2 ^ j < 2 ^ 32 :=
  Nat.pow_lt_pow_right (by norm_num) (by omega)

/-- Claim C6: flipping any single bit of the key or value payload bytes
of a well-formed encoded WAL record makes `DecodeRecord` fail with the
CRC-mismatch error. -/
theorem c6_wal_crc_single_bit_flip (rt : Nat) (k v : List Nat) (i j : Nat)
    (hrt : rt < 256) (hk : ∀ x ∈ k, x < 256) (hv : ∀ x ∈ v, x < 256)
    (hkcap : k.length ≤ 10 * 1024 * 1024) (hvcap : v.length ≤ 100 * 1024 * 1024)
    (hi9 : 9 ≤ i) (hi : i < 9 + k.length + v.length) (hj : j < 8) :
    decodeRecord (flipAt (encodeRecord rt k v) i j) = .error .crcMismatch := by
  obtain ⟨hdr, hhdr⟩ : ∃ hdr, hdr = rt :: (u32be k.length ++ u32be v.length) :=
    ⟨_, rfl⟩
  obtain ⟨kv, hkvdef⟩ : ∃ kv, kv = k ++ v := ⟨_, rfl⟩
  have hhdr9 : hdr.length = 9 := by rw [hhdr]; simp [u32be_len]
  have hkvlen : kv.length = k.length + v.length := by rw [hkvdef]; simp
  obtain ⟨c, hc⟩ : ∃ c, c = crc32 (hdr ++ kv) := ⟨_, rfl⟩
  -- the encoded record is (hdr ++ kv) ++ crc bytes
  have hA1 : encodeRecord rt k v = (hdr ++ kv) ++ u32be c := by
    rw [hc, hhdr, hkvdef]
    simp [encodeRecord, List.append_assoc]
  obtain ⟨kv2, hkv2⟩ : ∃ kv2, kv2 = flipAt kv (i - 9) j := ⟨_, rfl⟩
  have hplt : i - 9 < kv.length := by omega
  have hkv2len : kv2.length = k.length + v.length := by
    rw [hkv2, flipAt_length kv (i - 9) j hplt, hkvlen]
  -- the flip stays inside kv
  have hA2 : flipAt (encodeRecord rt k v) i j = (hdr ++ kv2) ++ u32be c := by
    rw [hA1, flipAt_append_left (hdr ++ kv) (u32be c) i j
        (by simp only [List.length_append, hhdr9, hkvlen]; omega),
      flipAt_append_right hdr kv i j (by rw [hhdr9]; omega),
      hhdr9, hkv2]
  -- re-associate into the framed-record shape and decode
  have hbytes : ∀ x ∈ hdr ++ kv, x < 2 ^ 32 := by
    intro x hx
    rcases List.mem_append.mp hx with hx | hx
    · rw [hhdr] at hx
      rcases List.mem_cons.mp hx with rfl | hx
      · omega
      · rcases List.mem_append.mp hx with hx | hx
        · exact lt_trans (u32be_bytes_lt _ x hx) (by norm_num)
        · exact lt_trans (u32be_bytes_lt _ x hx) (by norm_num)
    · rw [hkvdef] at hx
      rcases List.mem_append.mp hx with hx | hx
      · exact lt_trans (hk x hx) (by norm_num)
      · exact lt_trans (hv x hx) (by norm_num)
  have hclt : c < 2 ^ 32 := hc ▸ crc32_lt hbytes
  have hshape : (hdr ++ kv2) ++ u32be c
      = rt :: u32be k.length ++ u32be v.length ++ kv2 ++ u32be c := by
    rw [hhdr]
    simp [List.append_assoc]
  have hframe := decodeRecord_frame rt k.length v.length c kv2 hkv2len
    hkcap hvcap hclt
  -- the two CRCs differ: exactly one byte of kv changed
  have hp : i - 9 < kv.length := by omega
  have hkvsplit := take_getD_drop kv (i - 9) hp
  have hflip3 := flipAt_eq_parts kv (i - 9) j
  obtain ⟨b, hb⟩ : ∃ b, b = kv.getD (i - 9) 0 := ⟨_, rfl⟩
  have hbmem : b ∈ kv := by
    rw [hb, List.getD_eq_getElem _ _ hp]
    exact List.getElem_mem hp
  have hblt : b < 2 ^ 32 := by
    have : b ∈ hdr ++ kv := List.mem_append.mpr (.inr hbmem)
    exact hbytes b this
  have hbne : b ≠ b ^^^ 2 ^ j := by
    intro he
    have h0 : b ^^^ 0 = b ^^^ 2 ^ j := by rw [Nat.xor_zero]; exact he
    have := Nat.xor_right_inj.mp h0
    exact absurd this.symm (Nat.pos_iff_ne_zero.mp (Nat.pos_pow_of_pos j (by omega)))
  have hprebytes : ∀ x ∈ hdr ++ kv.take (i - 9), x < 2 ^ 32 := by
    intro x hx
    rcases List.mem_append.mp hx with hx | hx
    · exact hbytes x (List.mem_append.mpr (.inl hx))
    · exact hbytes x (List.mem_append.mpr (.inr (List.mem_of_mem_take hx)))
  have hsufbytes : ∀ x ∈ kv.drop (i - 9 + 1), x < 2 ^ 32 := by
    intro x hx
    exact hbytes x (List.mem_append.mpr (.inr (List.mem_of_mem_drop hx)))
  have hne := crc32_flip_ne (hdr ++ kv.take (i - 9)) (kv.drop (i - 9 + 1))
    b (b ^^^ 2 ^ j) hbne hblt
    (Nat.xor_lt_two_pow hblt (pow2j_lt_32 hj)) hprebytes hsufbytes
  have l1 : (hdr ++ kv.take (i - 9)) ++ b :: kv.drop (i - 9 + 1) = hdr ++ kv := by
    conv_rhs => rw [← hkvsplit]
    rw [hb]
    simp [List.append_assoc]
  have l2 : (hdr ++ kv.take (i - 9)) ++ (b ^^^ 2 ^ j) :: kv.drop (i - 9 + 1)
      = hdr ++ kv2 := by
    rw [hkv2, hflip3, hb]
    simp [List.append_assoc]
  have hcond : c ≠ crc32 (rt :: u32be k.length ++ u32be v.length ++ kv2) := by
    rw [hc]
    intro he
    apply hne
    rw [l1, l2]
    rw [show rt :: u32be k.length ++ u32be v.length ++ kv2 = hdr ++ kv2 by
      rw [hhdr]; simp [List.append_assoc]] at he
    exact he
  rw [hA2, hshape, hframe, if_pos hcond]

/-- Witness for C6 at a concrete record and flip position. -/
theorem c6_wal_crc_single_bit_flip_witness :
    decodeRecord (flipAt (encodeRecord 0 [1, 2, 3] [4, 5]) 9 0) = .error .crcMismatch :=
  c6_wal_crc_single_bit_flip 0 [1, 2, 3] [4, 5] 9 0 (by decide) (by decide)
    (by decide) (by decide) (by decide) (by decide) (by decide) (by decide)

/-! # Claim theorems (recovery, engine and writer evaluations) -/

/-- Claim C2 (code bug): with recovery finding only `wal-0.log`, the
fresh writable WAL is opened with id 0 again (the recovered id is
only incremented when non-zero), not with id 1 as specified; an empty
directory yields id 0 and a directory with largest id 3 yields id 4. -/
theorem c2_fresh_wal_id_reuses_zero :
    newLsmTreeFreshWalId ["wal-0.log".toList] = .ok 0
    ∧ newLsmTreeFreshWalId ["wal-0.log".toList, "wal-3.log".toList] = .ok 4
    ∧ newLsmTreeFreshWalId [] = .ok 0 := by
  decide

/-- Claim C4 (code bug): after two block rotations (BlockSize 1, four
one-byte-key entries), both appended index entries carry empty start
and end keys and offset 0 — the block is cleared before its keys are
read and the offset is the difference of two equal lengths — while the
byte length (20) is correct and the data buffer holds each block's
bytes exactly once; the entries the claim calls for differ. -/
theorem c4_rolled_block_index_entry :
    (sstAddAll (newSSTWriter 1)
        [([97], [120]), ([98], [121]), ([99], [122]), ([100], [119])]).index
      = [⟨[], [], 0, 20⟩, ⟨[], [], 0, 20⟩]
    ∧ (sstAddAll (newSSTWriter 1)
        [([97], [120]), ([98], [121]), ([99], [122]), ([100], [119])]).dataBuf
      = [0, 0, 0, 1, 0, 0, 0, 1, 97, 120, 0, 0, 0, 1, 0, 0, 0, 1, 98, 121,
         0, 0, 0, 1, 0, 0, 0, 1, 99, 122, 0, 0, 0, 1, 0, 0, 0, 1, 100, 119]
    ∧ ([⟨[], [], 0, 20⟩, ⟨[], [], 0, 20⟩] : List IndexM)
      ≠ [⟨[97], [98], 0, 20⟩, ⟨[99], [100], 20, 20⟩] := by
  decide

/-- Claim C9: a directory entry whose filename parses to level 7 (or
level -1) over a valid SST file makes `loadSST` index the five-slot
level array out of bounds (a Go panic), while an in-range level does
not. -/
theorem c9_load_sst_level_out_of_range :
    loadSSTModel 5 [("7_1.sst".toList, sstWriterFile 16 [([97], [120])])]
      = .indexOutOfRange
    ∧ loadSSTModel 5 [("-1_0.sst".toList, sstWriterFile 16 [([97], [120])])]
      = .indexOutOfRange
    ∧ loadSSTModel 5 [("4_1.sst".toList, sstWriterFile 16 [([97], [120])])]
      ≠ .indexOutOfRange := by
  decide

/-- Claim C7 counterexample: a filename with a non-numeric level still
fails recovery, but with the strconv parse error, not with
`ErrSSTCorrupted` as claimed. -/
theorem c7_nonnumeric_level_not_sst_corrupted :
    loadSSTModel 5 [("x_1.sst".toList, [])] = .err .numParseErr
    ∧ GErr.numParseErr ≠ GErr.sstCorrupted := by
  decide

/-- Claim C1 counterexample: Put then Delete of key `k` leaves its
tombstone in the mutable memtable, and `Get` returns the empty (non-nil)
value with a nil error — not the value-nil error the claim requires. -/
theorem c1_tombstone_get_returns_empty_ok :
    lsmGet (lsmDelete
        (lsmPut (lsmInit ⟨1000000, 5⟩) (some [107]) (some [118])).2
        (some [107])).2 (some [107])
      = (some [], none)
    ∧ ((some [], none) : GoB × Option GErr) ≠ (none, some GErr.valueNil) := by
  decide

/-- Claim C8 counterexample: a zero-length non-nil key is accepted by
`Put` (no key-nil error) and the pair is stored and readable. -/
theorem c8_empty_nonnil_key_accepted :
    (lsmPut (lsmInit ⟨1000000, 5⟩) (some []) (some [118])).1 = .ok ()
    ∧ lsmGet (lsmPut (lsmInit ⟨1000000, 5⟩) (some []) (some [118])).2 (some [])
      = (some [118], none) := by
  decide

/-- Claim C8 (amended): only the nil key is rejected with the key-nil
error, and only by the memtable: `Put`/`Delete` with a nil key return
key-nil but only after appending the record to the WAL (the memtable is
left unchanged but the WAL is not), `Get` with a nil key returns
key-nil, and a zero-length non-nil key is not rejected at all. -/
theorem c8_only_nil_key_rejected :
    (∀ st v, lsmPut st none v
        = (.error .keyNil, { st with curWal := walWrite st.curWal none v }))
    ∧ (∀ st, lsmDelete st none
        = (.error .keyNil, { st with curWal := walWrite st.curWal none none }))
    ∧ (∀ st, lsmGet st none = (none, some .keyNil))
    ∧ (∀ st v, (lsmPut st (some []) v).1 = .ok ())
    ∧ (∀ st, (lsmDelete st (some [])).1 = .ok ()) := by
  refine ⟨fun st v => rfl, fun st => rfl, fun st => rfl, fun st v => ?_, fun st => ?_⟩
  · unfold lsmPut
    dsimp only [mtPut]
    split <;> rfl
  · unfold lsmDelete
    dsimp only [mtPut]
    split <;> rfl

/-- Claim C3 counterexample: writing the single pair ("a", empty value)
and opening the result fails — the final zero-length value read hits
the exhausted `bytes.Reader`, which reports EOF even for empty reads —
so the reader yields no stream at all. -/
theorem c3_trailing_empty_value_breaks_reader :
    newSSTReader (sstWriterFile 16 [([97], [])]) = .error .eofErr := by
  decide

theorem mtGet_some_cases (mt : MemtableM) (k : List Nat) :
    mtGet mt (some k) = (none, some .keyNotFound)
    ∨ ∃ v, mtGet mt (some k) = (some v, none) := by
  cases hfind : mt.find? (fun e => e.1 = k) with
  | none =>
      left
      simp [mtGet, hfind]
  | some e =>
      right
      exact ⟨e.2, by simp [mtGet, hfind]⟩

theorem sealedGetLoop_no_valueNil (k : List Nat) (l : List (WalM × MemtableM)) :
    ∀ res, sealedGetLoop (some k) l = some res → res.2 ≠ some GErr.valueNil := by
  induction l with
  | nil =>
      intro res h
      simp [sealedGetLoop] at h
  | cons p rest ih =>
      intro res h
      obtain ⟨w, mt⟩ := p
      rcases mtGet_some_cases mt k with hc | ⟨v, hc⟩ <;>
        simp only [sealedGetLoop, hc] at h
      · exact ih res h
      · cases Option.some.inj h
        simp

theorem levelGetLoop_no_valueNil (k : List Nat) (l : List NodeM)
    (hl : ∀ n ∈ l, ∀ kv ∈ n.kvList, kv.2 ≠ none) :
    ∀ res, levelGetLoop k l = some res → res.2 ≠ some GErr.valueNil := by
  induction l with
  | nil =>
      intro res h
      simp [levelGetLoop] at h
  | cons n rest ih =>
      intro res h
      unfold levelGetLoop at h
      cases hfind : n.kvList.find? (fun kv => kv.1 = k) with
      | none =>
          simp only [nodeGet, hfind] at h
          exact ih (fun n hn => hl n (List.mem_cons_of_mem _ hn)) res h
      | some kv =>
          have hkv : kv.2 ≠ none :=
            hl n (List.mem_cons_self n rest) kv (List.mem_of_find?_eq_some hfind)
          simp only [nodeGet, hfind, if_neg hkv] at h
          cases Option.some.inj h
          simp

theorem nodesGetLoop_no_valueNil (k : List Nat) (ls : List (List NodeM))
    (hl : ∀ lvl ∈ ls, ∀ n ∈ lvl, ∀ kv ∈ n.kvList, kv.2 ≠ none) :
    ∀ res, nodesGetLoop k ls = some res → res.2 ≠ some GErr.valueNil := by
  induction ls with
  | nil =>
      intro res h
      simp [nodesGetLoop] at h
  | cons lvl rest ih =>
      intro res h
      unfold nodesGetLoop at h
      cases hlev : levelGetLoop k lvl.reverse with
      | some r =>
          simp only [hlev] at h
          have := levelGetLoop_no_valueNil k lvl.reverse
            (fun n hn => hl lvl (List.mem_cons_self lvl rest) n (List.mem_reverse.mp hn))
            r hlev
          cases Option.some.inj h
          exact this
      | none =>
          simp only [hlev] at h
          exact ih (fun l hn => hl l (List.mem_cons_of_mem _ hn)) res h

/-- Claim C1 (amended): a tombstone is surfaced as the empty non-nil
value with a nil error, uniformly across the three read sources — the
mutable memtable, the newest sealed memtable, and an SST node — and on
any state whose node values are non-nil (all nodes the pipeline builds,
see C10) `Get` never returns the value-nil error. -/
theorem c1_tombstone_uniform_empty_ok :
    (∀ st : LsmM, ∀ k, mtGet st.mutableIndex (some k) = (some [], none) →
      lsmGet st (some k) = (some [], none))
    ∧ (∀ st : LsmM, ∀ k rest w mt,
        mtGet st.mutableIndex (some k) = (none, some .keyNotFound) →
        st.immutableIndex = rest ++ [(w, mt)] →
        mtGet mt (some k) = (some [], none) →
        lsmGet st (some k) = (some [], none))
    ∧ (∀ st : LsmM, ∀ k n,
        mtGet st.mutableIndex (some k) = (none, some .keyNotFound) →
        st.immutableIndex = [] → st.nodes = [[n]] →
        nodeGet n k = (some [], none) →
        lsmGet st (some k) = (some [], none))
    ∧ (∀ st : LsmM, ∀ key,
        (∀ lvl ∈ st.nodes, ∀ n ∈ lvl, ∀ kv ∈ n.kvList, kv.2 ≠ none) →
        (lsmGet st key).2 ≠ some GErr.valueNil) := by
  refine ⟨?_, ?_, ?_, ?_⟩
  · intro st k h
    simp [lsmGet, h]
  · intro st k rest w mt h1 h2 h3
    simp [lsmGet, h1, h2, sealedGetLoop, h3]
  · intro st k n h1 h2 h3 h4
    simp [lsmGet, h1, h2, h3, sealedGetLoop, nodesGetLoop, levelGetLoop, h4, goData]
  · intro st key hnodes
    unfold lsmGet
    cases key with
    | none => simp [mtGet]
    | some k =>
        rcases mtGet_some_cases st.mutableIndex k with hc | ⟨v, hc⟩ <;> simp only [hc]
        · cases hsl : sealedGetLoop (some k) st.immutableIndex.reverse with
          | some res =>
              simp only [hsl]
              exact sealedGetLoop_no_valueNil k _ res hsl
          | none =>
              simp only [hsl]
              cases hnl : nodesGetLoop (goData (some k)) st.nodes with
              | some res =>
                  simp only [hnl]
                  exact nodesGetLoop_no_valueNil _ st.nodes hnodes res hnl
              | none => simp [hnl]
        · simp

theorem goAtoi_error_eq (s : List Char) (e : GErr) (h : goAtoi s = .error e) :
    e = .numParseErr := by
  unfold goAtoi at h
  split at h <;> split at h <;> simp_all

theorem goParseUint32_error_eq (s : List Char) (e : GErr)
    (h : goParseUint32 s = .error e) : e = .numParseErr := by
  unfold goParseUint32 at h
  split at h
  · split at h <;> simp_all
  · simp_all

/-- Claim C7 (amended): every malformed SST filename fails recovery,
but the error kind depends on the shape: a wrong suffix or a wrong
underscore count yield `ErrSSTCorrupted`, while non-numeric level or
seq components yield the strconv parse error (returned as-is). -/
theorem c7_malformed_sst_filename (ls : Nat) (name : List Char) (bytes : List Nat) :
    (¬listEndsWith name ['.', 's', 's', 't'] →
      loadSSTModel ls [(name, bytes)] = .err .sstCorrupted)
    ∧ (∀ e, listEndsWith name ['.', 's', 's', 't'] →
        parseSSTFileName (name.take (name.length - 4)) = .error e →
        loadSSTModel ls [(name, bytes)] = .err e)
    ∧ (((name.take (name.length - 4)).splitOn '_').length ≠ 2 →
        parseSSTFileName (name.take (name.length - 4)) = .error .sstCorrupted)
    ∧ (∀ e, ((name.take (name.length - 4)).splitOn '_').length = 2 →
        goAtoi (((name.take (name.length - 4)).splitOn '_').headD []) = .error e →
        parseSSTFileName (name.take (name.length - 4)) = .error e ∧ e = .numParseErr)
    ∧ (∀ lv e, ((name.take (name.length - 4)).splitOn '_').length = 2 →
        goAtoi (((name.take (name.length - 4)).splitOn '_').headD []) = .ok lv →
        goParseUint32 (((name.take (name.length - 4)).splitOn '_').getD 1 []) = .error e →
        parseSSTFileName (name.take (name.length - 4)) = .error e ∧ e = .numParseErr) := by
  refine ⟨?_, ?_, ?_, ?_, ?_⟩
  · intro h
    simp only [Bool.not_eq_true] at h
    simp [loadSSTModel, loadSSTPhase1, h]
  · intro e h1 h2
    simp [loadSSTModel, loadSSTPhase1, h1, h2]
  · intro h
    unfold parseSSTFileName
    rw [if_pos h]
  · intro e h1 h2
    refine ⟨?_, goAtoi_error_eq _ _ h2⟩
    unfold parseSSTFileName
    rw [if_neg (by omega), h2]
  · intro lv e h1 h2 h3
    refine ⟨?_, goParseUint32_error_eq _ _ h3⟩
    unfold parseSSTFileName
    rw [if_neg (by omega), h2, h3]

/-- Witness for the amended C7 at the three malformed shapes. -/
theorem c7_malformed_sst_filename_witness :
    loadSSTModel 5 [("0_1.db".toList, [])] = .err .sstCorrupted
    ∧ loadSSTModel 5 [("a_b_c.sst".toList, [])] = .err .sstCorrupted
    ∧ loadSSTModel 5 [("x_1.sst".toList, [])] = .err .numParseErr := by
  refine ⟨?_, ?_, ?_⟩
  · exact (c7_malformed_sst_filename 5 "0_1.db".toList []).1 (by decide)
  · exact (c7_malformed_sst_filename 5 "a_b_c.sst".toList []).2.1 .sstCorrupted
      (by decide) ((c7_malformed_sst_filename 5 "a_b_c.sst".toList []).2.2.1 (by decide))
  · exact (c7_malformed_sst_filename 5 "x_1.sst".toList []).2.1 .numParseErr
      (by decide) (by decide)

/-- Witness for the amended C1 at concrete one-key states. -/
theorem c1_tombstone_uniform_empty_ok_witness :
    lsmGet ⟨⟨10, 5⟩, [([107], [])], 0, ⟨[]⟩, [], []⟩ (some [107]) = (some [], none)
    ∧ lsmGet ⟨⟨10, 5⟩, [], 0, ⟨[]⟩, [(⟨[]⟩, [([107], [])])], []⟩ (some [107])
        = (some [], none)
    ∧ lsmGet ⟨⟨10, 5⟩, [], 0, ⟨[]⟩, [], [[⟨0, 0, [([107], some [])]⟩]]⟩ (some [107])
        = (some [], none)
    ∧ (lsmGet ⟨⟨10, 5⟩, [], 0, ⟨[]⟩, [], [[⟨0, 0, [([107], some [])]⟩]]⟩
        (some [107])).2 ≠ some GErr.valueNil := by
  refine ⟨?_, ?_, ?_, ?_⟩
  · exact c1_tombstone_uniform_empty_ok.1 _ [107] (by decide)
  · exact c1_tombstone_uniform_empty_ok.2.1 _ [107] [] ⟨[]⟩ [([107], [])]
      (by decide) rfl (by decide)
  · exact c1_tombstone_uniform_empty_ok.2.2.1 _ [107] ⟨0, 0, [([107], some [])]⟩
      (by decide) rfl rfl (by decide)
  · exact c1_tombstone_uniform_empty_ok.2.2.2 _ (some [107]) (by decide)

theorem parseKVs_values_some : ∀ (fuel : Nat) (buf : List Nat)
    (res : List (List Nat × GoB)), parseKVs fuel buf = .ok res →
    ∀ kv ∈ res, kv.2 ≠ none := by
  intro fuel
  induction fuel with
  | zero =>
      intro buf res h
      simp [parseKVs] at h
  | succ fuel ih =>
      intro buf res h
      unfold parseKVs at h
      by_cases hb : buf.length = 0
      · rw [if_pos hb] at h
        cases Except.ok.inj h
        intro kv hkv
        simp at hkv
      · rw [if_neg hb] at h
        split at h
        next => cases h
        next kl b1 hk1 =>
          split at h
          next => cases h
          next vl b2 hk2 =>
            split at h
            next => cases h
            next key b3 hk3 =>
              split at h
              next => cases h
              next value b4 hk4 =>
                split at h
                next => cases h
                next rest hk5 =>
                  cases Except.ok.inj h
                  intro kv hkv
                  rcases List.mem_cons.mp hkv with rfl | hkv
                  · simp
                  · exact ih b4 rest hk5 kv hkv

theorem newSSTReader_values_some (file : List Nat) (r : SSTReaderM)
    (h : newSSTReader file = .ok r) : ∀ kv ∈ r.kvList, kv.2 ≠ none := by
  unfold newSSTReader at h
  by_cases h12 : file.length < 12
  · rw [if_pos h12] at h; cases h
  · rw [if_neg h12] at h
    by_cases hsum : (beU32At (file.drop (file.length - 12))
        + beU32At ((file.drop (file.length - 12)).drop 4)
        + beU32At ((file.drop (file.length - 12)).drop 8) + 12) % 2 ^ 32 ≠ file.length
    · rw [if_pos hsum] at h; cases h
    · rw [if_neg hsum] at h
      dsimp only at h
      split at h
      next => cases h
      next indexData hk1 =>
        split at h
        next => cases h
        next index hk2 =>
          split at h
          next => cases h
          next blockData hk3 =>
            split at h
            next => cases h
            next kvList hk4 =>
              split at h
              next => cases h
              next filterData hk5 =>
                split at h
                next => cases h
                next filterMap hk6 =>
                  cases Except.ok.inj h
                  exact parseKVs_values_some _ _ _ hk4

/-- Claim C10: every value a successfully opened SST reader materializes
is non-nil, so `Node.Get` on a node built from it can never return the
value-nil error — that branch is dead — and a tombstone (empty value)
stored for a key is returned as the empty value with no error. -/
theorem c10_node_get_never_value_nil (file : List Nat) (r : SSTReaderM)
    (level : Int) (seq : Nat) (h : newSSTReader file = .ok r) :
    (∀ kv ∈ r.kvList, kv.2 ≠ none)
    ∧ (∀ k, (nodeGet ⟨level, seq, r.kvList⟩ k).2 ≠ some GErr.valueNil)
    ∧ (∀ k, r.kvList.find? (fun kv => kv.1 = k) = some (k, some []) →
        nodeGet ⟨level, seq, r.kvList⟩ k = (some [], none)) := by
  have hvals := newSSTReader_values_some file r h
  refine ⟨hvals, ?_, ?_⟩
  · intro k
    unfold nodeGet
    cases hfind : r.kvList.find? (fun kv => kv.1 = k) with
    | none => simp
    | some kv =>
        have hkv := hvals kv (List.mem_of_find?_eq_some hfind)
        simp [if_neg hkv]
  · intro k hfind
    unfold nodeGet
    rw [hfind]
    simp

/-- Witness for C10 on a concrete SST holding a tombstone for "a". -/
theorem c10_node_get_never_value_nil_witness :
    (newSSTReader (sstWriterFile 16 [([97], []), ([98], [121])])).map
      (fun r => nodeGet ⟨0, 0, r.kvList⟩ [97]) = .ok (some [], none) := by
  cases he : newSSTReader (sstWriterFile 16 [([97], []), ([98], [121])]) with
  | error e =>
      have hok : (newSSTReader (sstWriterFile 16 [([97], []), ([98], [121])])).isOk
          = true := by decide
      rw [he] at hok
      simp [Except.isOk, Except.toBool] at hok
  | ok r =>
      have hkvl : r.kvList = [([97], some []), ([98], some [121])] := by
        have h2 : (newSSTReader (sstWriterFile 16 [([97], []), ([98], [121])])).map
            (fun r => r.kvList) = .ok [([97], some []), ([98], some [121])] := by decide
        rw [he] at h2
        simpa [Except.map] using h2
      have hget := (c10_node_get_never_value_nil _ r 0 0 he).2.2 [97]
        (by rw [hkvl]; decide)
      simp only [Except.map, he, hget]

/-- Claim C5: for every complete writer run, the three `uint32` section
lengths recorded in the 12-byte footer sum with 12 to the file size
(stated for section lengths within the `uint32` range, which the cast
`uint32(n)` presumes). -/
theorem c5_sst_footer_invariant (bs : Nat) (entries : List (List Nat × List Nat))
    (hd : (sstFlushState (sstAddAll (newSSTWriter bs) entries)).dataBuf.length < 2 ^ 32)
    (hi : (sstFlushState (sstAddAll (newSSTWriter bs) entries)).indexBuf.length < 2 ^ 32)
    (hf : (sstFlushState (sstAddAll (newSSTWriter bs) entries)).filterBuf.length < 2 ^ 32) :
    beU32At ((sstWriterFile bs entries).drop ((sstWriterFile bs entries).length - 12))
      + beU32At (((sstWriterFile bs entries).drop
          ((sstWriterFile bs entries).length - 12)).drop 4)
      + beU32At (((sstWriterFile bs entries).drop
          ((sstWriterFile bs entries).length - 12)).drop 8)
      + 12
    = (sstWriterFile bs entries).length := by
  obtain ⟨d, hdd⟩ : ∃ d, d = (sstFlushState (sstAddAll (newSSTWriter bs) entries)).dataBuf :=
    ⟨_, rfl⟩
  obtain ⟨i, hii⟩ : ∃ i, i = (sstFlushState (sstAddAll (newSSTWriter bs) entries)).indexBuf :=
    ⟨_, rfl⟩
  obtain ⟨ft, hff⟩ : ∃ ft,
      ft = (sstFlushState (sstAddAll (newSSTWriter bs) entries)).filterBuf := ⟨_, rfl⟩
  have hd' : d.length < 2 ^ 32 := by rw [hdd]; exact hd
  have hi' : i.length < 2 ^ 32 := by rw [hii]; exact hi
  have hf' : ft.length < 2 ^ 32 := by rw [hff]; exact hf
  have hfile : sstWriterFile bs entries
      = (d ++ i ++ ft) ++ (u32be d.length ++ (u32be i.length ++ u32be ft.length)) := by
    rw [hdd, hii, hff]
    simp [sstWriterFile, sstFileOf, List.append_assoc]
  have hflen : (sstWriterFile bs entries).length
      = d.length + i.length + ft.length + 12 := by
    rw [hfile]
    simp only [List.length_append, u32be_len]
  have hdrop : (sstWriterFile bs entries).drop ((sstWriterFile bs entries).length - 12)
      = u32be d.length ++ (u32be i.length ++ u32be ft.length) := by
    rw [hflen, hfile, show d.length + i.length + ft.length + 12 - 12
        = (d ++ i ++ ft).length by simp only [List.length_append]; omega,
      List.drop_left]
  have e1 : beU32At (u32be d.length ++ (u32be i.length ++ u32be ft.length))
      = d.length := beU32At_u32be _ hd' _
  have e2 : (u32be d.length ++ (u32be i.length ++ u32be ft.length)).drop 4
      = u32be i.length ++ u32be ft.length := by
    rw [show (4 : Nat) = (u32be d.length).length from (u32be_len _).symm, List.drop_left]
  have e3 : beU32At (u32be i.length ++ u32be ft.length) = i.length :=
    beU32At_u32be _ hi' _
  have e4 : (u32be d.length ++ (u32be i.length ++ u32be ft.length)).drop 8
      = u32be ft.length := by
    rw [show u32be d.length ++ (u32be i.length ++ u32be ft.length)
        = (u32be d.length ++ u32be i.length) ++ u32be ft.length by
      simp [List.append_assoc]]
    rw [show (8 : Nat) = (u32be d.length ++ u32be i.length).length by
      simp [u32be_len], List.drop_left]
  have e5 : beU32At (u32be ft.length) = ft.length := by
    rw [show u32be ft.length = u32be ft.length ++ [] by simp]
    exact beU32At_u32be _ hf' _
  rw [hdrop, e1, e2, e3, e4, e5, hflen]

/-- Witness for C5 at a concrete three-entry, two-block run. -/
theorem c5_sst_footer_invariant_witness :
    (sstFlushState (sstAddAll (newSSTWriter 2)
        [([97], [120]), ([98], [121]), ([99], [122])])).dataBuf.length < 2 ^ 32
    ∧ beU32At ((sstWriterFile 2 [([97], [120]), ([98], [121]), ([99], [122])]).drop
          ((sstWriterFile 2 [([97], [120]), ([98], [121]), ([99], [122])]).length - 12))
        + beU32At (((sstWriterFile 2 [([97], [120]), ([98], [121]), ([99], [122])]).drop
          ((sstWriterFile 2 [([97], [120]), ([98], [121]), ([99], [122])]).length - 12)).drop 4)
        + beU32At (((sstWriterFile 2 [([97], [120]), ([98], [121]), ([99], [122])]).drop
          ((sstWriterFile 2 [([97], [120]), ([98], [121]), ([99], [122])]).length - 12)).drop 8)
        + 12
      = (sstWriterFile 2 [([97], [120]), ([98], [121]), ([99], [122])]).length :=
  ⟨by decide,
   c5_sst_footer_invariant 2 [([97], [120]), ([98], [121]), ([99], [122])]
     (by decide) (by decide) (by decide)⟩

/-! ## Writer-state invariants -/

theorem setBitByte_len (bits : List Nat) (pos : Nat) :
    (setBitByte bits pos).length = bits.length := by
  simp [setBitByte]

theorem foldl_setBit_len (l : List Nat) (g : Nat → Nat) :
    ∀ bits : List Nat,
      (l.foldl (fun bs i => setBitByte bs (g i)) bits).length = bits.length := by
  induction l with
  | nil => intro bits; rfl
  | cons i rest ih =>
      intro bits
      simp only [List.foldl_cons]
      rw [ih, setBitByte_len]

theorem bloomAdd_bits_len (f : BloomF) (key : List Nat) :
    (bloomAdd f key).bits.length = f.bits.length :=
  foldl_setBit_len (List.range f.k) (fun i => bloomHash i key % max f.m 1) f.bits

theorem mustRotate_dataConcat (s : SSTWriterM) :
    (mustRotateDataBlock s).dataBuf ++ (mustRotateDataBlock s).dataBlock.dataBuf
      = s.dataBuf ++ s.dataBlock.dataBuf := by
  unfold mustRotateDataBlock
  dsimp only
  split
  · rfl
  · simp [blockClear]

theorem mustRotate_block_nil (s : SSTWriterM) :
    (mustRotateDataBlock s).dataBlock.dataBuf = [] := by
  unfold mustRotateDataBlock
  dsimp only
  split
  next h => exact List.eq_nil_of_length_eq_zero h
  next h => simp [blockClear]

theorem tryRotate_dataConcat (s : SSTWriterM) :
    (tryRotateDataBlock s).dataBuf ++ (tryRotateDataBlock s).dataBlock.dataBuf
      = s.dataBuf ++ s.dataBlock.dataBuf := by
  unfold tryRotateDataBlock
  split
  · rfl
  · exact mustRotate_dataConcat s

theorem sstAdd_dataConcat (s : SSTWriterM) (k v : List Nat) :
    (sstAdd s k v).dataBuf ++ (sstAdd s k v).dataBlock.dataBuf
      = s.dataBuf ++ s.dataBlock.dataBuf ++ encKV k v := by
  unfold sstAdd
  rw [tryRotate_dataConcat]
  simp [blockAdd, encKV, List.append_assoc]

theorem sstAddAll_dataConcat (entries : List (List Nat × List Nat)) :
    ∀ s : SSTWriterM,
      (sstAddAll s entries).dataBuf ++ (sstAddAll s entries).dataBlock.dataBuf
        = s.dataBuf ++ s.dataBlock.dataBuf ++ joinKV entries := by
  induction entries with
  | nil => intro s; simp [sstAddAll, joinKV]
  | cons e rest ih =>
      intro s
      have h1 : sstAddAll s (e :: rest) = sstAddAll (sstAdd s e.1 e.2) rest := rfl
      rw [h1, ih, sstAdd_dataConcat]
      simp [joinKV, encKV, List.append_assoc]

theorem WInv_new (bs : Nat) : WInv (newSSTWriter bs) := by
  refine ⟨?_, rfl, ⟨[], rfl, ?_⟩, ?_, rfl, rfl, rfl⟩
  · intro idx h
    simp [newSSTWriter] at h
  · intro p h
    simp at h
  · simp [newSSTWriter, newBloomFilter]

theorem WInv_mustRotate (s : SSTWriterM) (h : WInv s) :
    WInv (mustRotateDataBlock s) := by
  obtain ⟨hidx, hib, ⟨fl, hfl, hflw⟩, hbits, hm, hibuf, hfbuf⟩ := h
  unfold mustRotateDataBlock
  dsimp only
  split
  · exact ⟨hidx, hib, ⟨fl, hfl, hflw⟩, hbits, hm, hibuf, hfbuf⟩
  · refine ⟨?_, ?_, ?_, ?_, ?_, ?_, ?_⟩
    · intro idx hmem
      simp only [List.mem_append, List.mem_singleton] at hmem
      rcases hmem with hmem | rfl
      · exact hidx idx hmem
      · exact ⟨rfl, rfl, Nat.sub_self _⟩
    · simp only [blockIndexAdd, hib, List.map_append, List.flatten_append]
      simp [blockClear, Nat.sub_self]
    · refine ⟨fl ++ [(s.dataBlock.dataBuf.length, s.filter.bits)], ?_, ?_⟩
      · simp only [blockFilterAdd, hfl, List.map_append, List.flatten_append]
        simp [bloomSave]
      · intro p hp
        rcases List.mem_append.mp hp with hp | hp
        · exact hflw p hp
        · rcases List.mem_singleton.mp hp with rfl
          exact hbits
    · simp [bloomReset, hm]
    · simp [bloomReset, hm]
    · exact hibuf
    · exact hfbuf

theorem WInv_sstAdd (s : SSTWriterM) (k v : List Nat) (h : WInv s) :
    WInv (sstAdd s k v) := by
  obtain ⟨hidx, hib, hfw, hbits, hm, hibuf, hfbuf⟩ := h
  have hmid : WInv { s with dataBlock := blockAdd s.dataBlock k v, filter := bloomAdd s.filter k } := by
    refine ⟨hidx, hib, hfw, ?_, hm, hibuf, hfbuf⟩
    show (bloomAdd s.filter k).bits.length = 128
    rw [bloomAdd_bits_len]
    exact hbits
  unfold sstAdd
  dsimp only
  unfold tryRotateDataBlock
  dsimp only
  split
  · exact hmid
  · exact WInv_mustRotate _ hmid

theorem WInv_sstAddAll (entries : List (List Nat × List Nat)) :
    ∀ s : SSTWriterM, WInv s → WInv (sstAddAll s entries) := by
  induction entries with
  | nil => intro s h; exact h
  | cons e rest ih =>
      intro s h
      exact ih (sstAdd s e.1 e.2) (WInv_sstAdd s e.1 e.2 h)

theorem flush_dataBuf (bs : Nat) (entries : List (List Nat × List Nat)) :
    (sstFlushState (sstAddAll (newSSTWriter bs) entries)).dataBuf
      = joinKV entries := by
  unfold sstFlushState
  dsimp only
  rw [mustRotate_dataConcat, sstAddAll_dataConcat]
  rfl

theorem flush_indexBuf (bs : Nat) (entries : List (List Nat × List Nat)) :
    (sstFlushState (sstAddAll (newSSTWriter bs) entries)).indexBuf
      = ((mustRotateDataBlock (sstAddAll (newSSTWriter bs) entries)).index.map
          encodeIndex).flatten := by
  have h := WInv_mustRotate _ (WInv_sstAddAll entries _ (WInv_new bs))
  obtain ⟨hidx, hib, hfw, hbits, hm, hibuf, hfbuf⟩ := h
  unfold sstFlushState
  dsimp only
  rw [hibuf, hib]
  rfl

theorem flush_filterBuf (bs : Nat) (entries : List (List Nat × List Nat)) :
    FilterWF (sstFlushState (sstAddAll (newSSTWriter bs) entries)).filterBuf := by
  have h := WInv_mustRotate _ (WInv_sstAddAll entries _ (WInv_new bs))
  obtain ⟨hidx, hib, hfw, hbits, hm, hibuf, hfbuf⟩ := h
  unfold sstFlushState
  dsimp only
  rw [hfbuf]
  simpa using hfw

theorem flush_index_shape (bs : Nat) (entries : List (List Nat × List Nat)) :
    ∀ idx ∈ (mustRotateDataBlock (sstAddAll (newSSTWriter bs) entries)).index,
      idx.startKey = [] ∧ idx.endKey = [] ∧ idx.offset = 0 :=
  (WInv_mustRotate _ (WInv_sstAddAll entries _ (WInv_new bs))).1

/-! ## Parse adequacy on well-formed sections -/

theorem joinKV_cons (k v : List Nat) (rest : List (List Nat × List Nat)) :
    joinKV ((k, v) :: rest) = encKV k v ++ joinKV rest := by
  simp [joinKV]

theorem encKV_len (k v : List Nat) :
    (encKV k v).length = 8 + k.length + v.length := by
  simp only [encKV, List.length_append, u32be_len]

theorem joinKV_cons_len_pos (e : List Nat × List Nat)
    (rest : List (List Nat × List Nat)) : 0 < (joinKV (e :: rest)).length := by
  obtain ⟨k, v⟩ := e
  rw [joinKV_cons]
  simp only [List.length_append, encKV_len]
  omega

theorem parseKVs_adequate : ∀ (entries : List (List Nat × List Nat)) (fuel : Nat),
    entries.length + 1 ≤ fuel →
    (∀ e ∈ entries, e.1.length < 2 ^ 32 ∧ e.2.length < 2 ^ 32) →
    (∀ e ∈ entries, e.1 ≠ []) →
    (∀ e, entries.getLast? = some e → e.2 ≠ []) →
    parseKVs fuel (joinKV entries) = .ok (entries.map fun e => (e.1, some e.2)) := by
  intro entries
  induction entries with
  | nil =>
      intro fuel hfuel hlens hkeys hlast
      cases fuel with
      | zero => omega
      | succ f => simp [parseKVs, joinKV]
  | cons e rest ih =>
      intro fuel hfuel hlens hkeys hlast
      obtain ⟨k, v⟩ := e
      cases fuel with
      | zero => omega
      | succ f =>
          have hk1 : k.length < 2 ^ 32 := (hlens (k, v) (List.mem_cons_self _ _)).1
          have hv1 : v.length < 2 ^ 32 := (hlens (k, v) (List.mem_cons_self _ _)).2
          have hkne : k ≠ [] := hkeys (k, v) (List.mem_cons_self _ _)
          have hkpos : 0 < k.length := List.length_pos.mpr hkne
          have hbuf : joinKV ((k, v) :: rest)
              = u32be k.length ++ (u32be v.length ++ (k ++ (v ++ joinKV rest))) := by
            rw [joinKV_cons]
            simp [encKV, List.append_assoc]
          have hvpos : 0 < v.length + (joinKV rest).length := by
            cases rest with
            | nil =>
                have hlv : v ≠ [] := hlast (k, v) (by simp)
                have hlvp : 0 < v.length := List.length_pos.mpr hlv
                simp only [joinKV, List.map_nil, List.flatten_nil, List.length_nil]
                omega
            | cons r rs =>
                have := joinKV_cons_len_pos r rs
                omega
          have r1 : readU32E (u32be k.length ++ (u32be v.length ++ (k ++ (v ++ joinKV rest))))
              = .ok (k.length, u32be v.length ++ (k ++ (v ++ joinKV rest))) :=
            readU32E_u32be _ hk1 _
          have r2 : readU32E (u32be v.length ++ (k ++ (v ++ joinKV rest)))
              = .ok (v.length, k ++ (v ++ joinKV rest)) :=
            readU32E_u32be _ hv1 _
          have r3 : goRead (k ++ (v ++ joinKV rest)) k.length = .ok (k, v ++ joinKV rest) := by
            have := goRead_exact k (v ++ joinKV rest)
              (by simp only [List.length_append]; omega)
            simpa using this
          have r4 : goRead (v ++ joinKV rest) v.length = .ok (v, joinKV rest) := by
            have := goRead_exact v (joinKV rest) (by omega)
            simpa using this
          have r5 : parseKVs f (joinKV rest) = .ok (rest.map fun e => (e.1, some e.2)) := by
            apply ih f (by simp at hfuel; omega)
              (fun x hx => hlens x (List.mem_cons_of_mem _ hx))
              (fun x hx => hkeys x (List.mem_cons_of_mem _ hx))
            intro x hx
            cases rest with
            | nil => simp at hx
            | cons r rs =>
                exact hlast x (by rw [List.getLast?_cons_cons]; exact hx)
          have hcond : ¬(joinKV ((k, v) :: rest)).length = 0 := by
            have := joinKV_cons_len_pos (k, v) rest
            omega
          unfold parseKVs
          rw [if_neg hcond, hbuf]
          simp only [r1, r2, r3, r4, r5]
          simp

theorem beU64At_i64be_mod (n : Nat) (rest : List Nat) :
    beU64At (i64be n ++ rest) = n % 2 ^ 64 := by
  simp only [i64be, List.cons_append, List.nil_append, beU64At]
  omega

theorem readU64E_i64be_mod (n : Nat) (rest : List Nat) :
    readU64E (i64be n ++ rest) = .ok (n % 2 ^ 64, rest) := by
  unfold readU64E
  rw [readExactN_append (i64be n) rest 8 (i64be_len n)]
  have h : beU64At (i64be n) = n % 2 ^ 64 := by
    rw [← List.append_nil (i64be n)]
    exact beU64At_i64be_mod n []
  simp only [h]

theorem joinKV_len_ge (entries : List (List Nat × List Nat)) :
    entries.length ≤ (joinKV entries).length := by
  induction entries with
  | nil => simp [joinKV]
  | cons e rest ih =>
      obtain ⟨k, v⟩ := e
      rw [joinKV_cons]
      simp only [List.length_append, List.length_cons, encKV_len]
      omega

theorem encodeIndex_len (i : IndexM) :
    (encodeIndex i).length = 24 + i.startKey.length + i.endKey.length := by
  simp only [encodeIndex, List.length_append, u32be_len, i64be_len]
  omega

theorem idxSection_len_ge (idxs : List IndexM) :
    idxs.length ≤ ((idxs.map encodeIndex).flatten).length := by
  induction idxs with
  | nil => simp
  | cons i rest ih =>
      simp only [List.map_cons, List.flatten_cons, List.length_append,
        List.length_cons, encodeIndex_len]
      omega

theorem filterSection_len_ge (l : List (Nat × List Nat)) :
    l.length ≤ ((l.map fun p => i64be p.1 ++ u32be p.2.length ++ p.2).flatten).length := by
  induction l with
  | nil => simp
  | cons p rest ih =>
      simp only [List.map_cons, List.flatten_cons, List.length_append, List.length_cons,
        i64be_len, u32be_len]
      omega

theorem lexCompare_self (k : List Nat) : lexCompare k k = .eq := by
  induction k with
  | nil => rfl
  | cons x xs ih => simp [lexCompare, ih]

theorem lexCompare_lt_ne (a b : List Nat) (h : lexCompare a b = .lt) : a ≠ b := by
  intro heq
  rw [heq, lexCompare_self] at h
  cases h

theorem lexCompare_nil_gt (k : List Nat) (h : k ≠ []) : lexCompare k [] = .gt := by
  cases k with
  | nil => exact absurd rfl h
  | cons x xs => rfl

theorem lexCompare_trans (a : List Nat) :
    ∀ b c, lexCompare a b = .lt → lexCompare b c = .lt → lexCompare a c = .lt := by
  induction a with
  | nil =>
      intro b c hab hbc
      cases b with
      | nil => simp [lexCompare] at hab
      | cons y ys =>
          cases c with
          | nil => simp [lexCompare] at hbc
          | cons z zs => rfl
  | cons x xs ih =>
      intro b c hab hbc
      cases b with
      | nil => simp [lexCompare] at hab
      | cons y ys =>
          cases c with
          | nil => simp [lexCompare] at hbc
          | cons z zs =>
              simp only [lexCompare] at hab hbc ⊢
              split at hab
              next hxy =>
                split at hbc
                next hyz => rw [if_pos (by omega)]
                next hyz =>
                  split at hbc
                  next hzy => cases hbc
                  next hzy => rw [if_pos (by omega)]
              next hxy =>
                split at hab
                next hyx => cases hab
                next hyx =>
                  split at hbc
                  next hyz => rw [if_pos (by omega)]
                  next hyz =>
                    split at hbc
                    next hzy => cases hbc
                    next hzy =>
                      rw [if_neg (by omega), if_neg (by omega)]
                      exact ih ys zs hab hbc

theorem chain_all_lt {α : Type} (f : α → List Nat) :
    ∀ (l : List α) (x : α),
      List.Chain' (fun a b => lexCompare (f a) (f b) = .lt) (x :: l) →
      ∀ y ∈ l, lexCompare (f x) (f y) = .lt := by
  intro l
  induction l with
  | nil =>
      intro x _ y hy
      simp at hy
  | cons r rs ih =>
      intro x hch y hy
      have h1 : lexCompare (f x) (f r) = .lt ∧
          List.Chain' (fun a b => lexCompare (f a) (f b) = .lt) (r :: rs) :=
        List.chain'_cons.mp hch
      rcases List.mem_cons.mp hy with rfl | hy
      · exact h1.1
      · exact lexCompare_trans (f x) (f r) (f y) h1.1 (ih r h1.2 y hy)

theorem getLast?_mem {α : Type} :
    ∀ (l : List α) (a : α), l.getLast? = some a → a ∈ l := by
  intro l
  induction l with
  | nil => intro a h; simp at h
  | cons x xs ih =>
      intro a h
      cases xs with
      | nil =>
          rw [List.getLast?_singleton] at h
          cases Option.some.inj h
          exact List.mem_cons_self x _
      | cons y ys =>
          rw [List.getLast?_cons_cons] at h
          exact List.mem_cons_of_mem _ (ih a h)

theorem mustRotate_index_len (s : SSTWriterM)
    (h : ∀ idx ∈ s.index,
      idx.length ≤ s.dataBuf.length + s.dataBlock.dataBuf.length) :
    ∀ idx ∈ (mustRotateDataBlock s).index,
      idx.length ≤ (mustRotateDataBlock s).dataBuf.length
        + (mustRotateDataBlock s).dataBlock.dataBuf.length := by
  unfold mustRotateDataBlock
  dsimp only
  split
  · exact h
  · intro idx hmem
    simp only [List.mem_append, List.mem_singleton] at hmem
    simp only [blockClear, List.length_append, List.length_nil]
    rcases hmem with hmem | rfl
    · have := h idx hmem
      omega
    · dsimp only
      omega

theorem tryRotate_index_len (s : SSTWriterM)
    (h : ∀ idx ∈ s.index,
      idx.length ≤ s.dataBuf.length + s.dataBlock.dataBuf.length) :
    ∀ idx ∈ (tryRotateDataBlock s).index,
      idx.length ≤ (tryRotateDataBlock s).dataBuf.length
        + (tryRotateDataBlock s).dataBlock.dataBuf.length := by
  unfold tryRotateDataBlock
  split
  · exact h
  · exact mustRotate_index_len s h

theorem sstAdd_index_len (s : SSTWriterM) (k v : List Nat)
    (h : ∀ idx ∈ s.index,
      idx.length ≤ s.dataBuf.length + s.dataBlock.dataBuf.length) :
    ∀ idx ∈ (sstAdd s k v).index,
      idx.length ≤ (sstAdd s k v).dataBuf.length
        + (sstAdd s k v).dataBlock.dataBuf.length := by
  unfold sstAdd
  dsimp only
  apply tryRotate_index_len
  intro idx hmem
  have := h idx hmem
  simp only [blockAdd, List.length_append]
  omega

theorem sstAddAll_index_len (entries : List (List Nat × List Nat)) :
    ∀ s : SSTWriterM,
      (∀ idx ∈ s.index,
        idx.length ≤ s.dataBuf.length + s.dataBlock.dataBuf.length) →
      ∀ idx ∈ (sstAddAll s entries).index,
        idx.length ≤ (sstAddAll s entries).dataBuf.length
          + (sstAddAll s entries).dataBlock.dataBuf.length := by
  induction entries with
  | nil => intro s h; exact h
  | cons e rest ih =>
      intro s h
      exact ih (sstAdd s e.1 e.2) (sstAdd_index_len s e.1 e.2 h)

theorem writer_index_len (bs : Nat) (entries : List (List Nat × List Nat)) :
    ∀ idx ∈ (mustRotateDataBlock (sstAddAll (newSSTWriter bs) entries)).index,
      idx.length ≤ (joinKV entries).length := by
  have h0 : ∀ idx ∈ (newSSTWriter bs).index,
      idx.length ≤ (newSSTWriter bs).dataBuf.length
        + (newSSTWriter bs).dataBlock.dataBuf.length := by
    intro idx h
    simp [newSSTWriter] at h
  have h1 := sstAddAll_index_len entries _ h0
  have h2 := mustRotate_index_len _ h1
  have hsum : (mustRotateDataBlock (sstAddAll (newSSTWriter bs) entries)).dataBuf.length
      + (mustRotateDataBlock (sstAddAll (newSSTWriter bs) entries)).dataBlock.dataBuf.length
      = (joinKV entries).length := by
    have ha := congrArg List.length
      (mustRotate_dataConcat (sstAddAll (newSSTWriter bs) entries))
    have hb := congrArg List.length (sstAddAll_dataConcat entries (newSSTWriter bs))
    simp only [List.length_append] at ha hb
    have hc : (newSSTWriter bs).dataBuf.length = 0 := rfl
    have hd : (newSSTWriter bs).dataBlock.dataBuf.length = 0 := rfl
    omega
  intro idx hmem
  have := h2 idx hmem
  omega

theorem iterSeq_adequate : ∀ (entries : List (List Nat × List Nat)) (fuel : Nat),
    entries.length + 1 ≤ fuel →
    (∀ e ∈ entries, e.1.length < 2 ^ 32 ∧ e.2.length < 2 ^ 32) →
    (∀ e ∈ entries, e.1 ≠ []) →
    (∀ e, entries.getLast? = some e → e.2 ≠ []) →
    iterSeq fuel (joinKV entries) = entries := by
  intro entries
  induction entries with
  | nil =>
      intro fuel hfuel hlens hkeys hlast
      cases fuel with
      | zero => omega
      | succ f => simp [iterSeq, joinKV]
  | cons e rest ih =>
      intro fuel hfuel hlens hkeys hlast
      obtain ⟨k, v⟩ := e
      cases fuel with
      | zero => omega
      | succ f =>
          have hk1 : k.length < 2 ^ 32 := (hlens (k, v) (List.mem_cons_self _ _)).1
          have hv1 : v.length < 2 ^ 32 := (hlens (k, v) (List.mem_cons_self _ _)).2
          have hkne : k ≠ [] := hkeys (k, v) (List.mem_cons_self _ _)
          have hkpos : 0 < k.length := List.length_pos.mpr hkne
          have hbuf : joinKV ((k, v) :: rest)
              = u32be k.length ++ (u32be v.length ++ (k ++ (v ++ joinKV rest))) := by
            rw [joinKV_cons]
            simp [encKV, List.append_assoc]
          have hvpos : 0 < v.length + (joinKV rest).length := by
            cases rest with
            | nil =>
                have hlv : v ≠ [] := hlast (k, v) (by simp)
                have hlvp : 0 < v.length := List.length_pos.mpr hlv
                simp only [joinKV, List.map_nil, List.flatten_nil, List.length_nil]
                omega
            | cons r rs =>
                have := joinKV_cons_len_pos r rs
                omega
          have r1 : readU32E (u32be k.length ++ (u32be v.length ++ (k ++ (v ++ joinKV rest))))
              = .ok (k.length, u32be v.length ++ (k ++ (v ++ joinKV rest))) :=
            readU32E_u32be _ hk1 _
          have r2 : readU32E (u32be v.length ++ (k ++ (v ++ joinKV rest)))
              = .ok (v.length, k ++ (v ++ joinKV rest)) :=
            readU32E_u32be _ hv1 _
          have r3 : goRead (k ++ (v ++ joinKV rest)) k.length = .ok (k, v ++ joinKV rest) := by
            have := goRead_exact k (v ++ joinKV rest)
              (by simp only [List.length_append]; omega)
            simpa using this
          have r4 : goRead (v ++ joinKV rest) v.length = .ok (v, joinKV rest) := by
            have := goRead_exact v (joinKV rest) (by omega)
            simpa using this
          have r5 : iterSeq f (joinKV rest) = rest := by
            apply ih f (by simp at hfuel; omega)
              (fun x hx => hlens x (List.mem_cons_of_mem _ hx))
              (fun x hx => hkeys x (List.mem_cons_of_mem _ hx))
            intro x hx
            cases rest with
            | nil => simp at hx
            | cons r rs =>
                exact hlast x (by rw [List.getLast?_cons_cons]; exact hx)
          have hcond : ¬(joinKV ((k, v) :: rest)).length = 0 := by
            have := joinKV_cons_len_pos (k, v) rest
            omega
          unfold iterSeq
          rw [if_neg hcond, hbuf]
          simp only [r1, r2, r3, r4, r5]

theorem parseIndexes_adequate : ∀ (idxs : List IndexM) (fuel : Nat),
    idxs.length + 1 ≤ fuel →
    (∀ i ∈ idxs, i.startKey.length < 2 ^ 32 ∧ i.endKey.length < 2 ^ 32
      ∧ i.offset < 2 ^ 64 ∧ i.length < 2 ^ 64) →
    parseIndexes fuel ((idxs.map encodeIndex).flatten) = .ok idxs := by
  intro idxs
  induction idxs with
  | nil =>
      intro fuel hfuel hb
      cases fuel with
      | zero => omega
      | succ f => simp [parseIndexes]
  | cons i rest ih =>
      intro fuel hfuel hb
      cases fuel with
      | zero => omega
      | succ f =>
          obtain ⟨hsk, hek, hoff, hlen⟩ := hb i (List.mem_cons_self _ _)
          have hbuf : ((i :: rest).map encodeIndex).flatten
              = u32be i.startKey.length ++ (u32be i.endKey.length ++ (i.startKey ++
                  (i.endKey ++ (i64be i.offset ++ (i64be i.length ++
                    (rest.map encodeIndex).flatten))))) := by
            simp only [List.map_cons, List.flatten_cons, encodeIndex, List.append_assoc]
          have hcond : ¬(((i :: rest).map encodeIndex).flatten).length = 0 := by
            rw [hbuf]
            simp only [List.length_append, u32be_len]
            omega
          have r1 : readU32E (u32be i.startKey.length ++ (u32be i.endKey.length ++ (i.startKey ++
                  (i.endKey ++ (i64be i.offset ++ (i64be i.length ++
                    (rest.map encodeIndex).flatten))))))
              = .ok (i.startKey.length, u32be i.endKey.length ++ (i.startKey ++
                  (i.endKey ++ (i64be i.offset ++ (i64be i.length ++
                    (rest.map encodeIndex).flatten))))) :=
            readU32E_u32be _ hsk _
          have r2 : readU32E (u32be i.endKey.length ++ (i.startKey ++
                  (i.endKey ++ (i64be i.offset ++ (i64be i.length ++
                    (rest.map encodeIndex).flatten)))))
              = .ok (i.endKey.length, i.startKey ++
                  (i.endKey ++ (i64be i.offset ++ (i64be i.length ++
                    (rest.map encodeIndex).flatten)))) :=
            readU32E_u32be _ hek _
          have r3 : goRead (i.startKey ++
                  (i.endKey ++ (i64be i.offset ++ (i64be i.length ++
                    (rest.map encodeIndex).flatten)))) i.startKey.length
              = .ok (i.startKey, i.endKey ++ (i64be i.offset ++ (i64be i.length ++
                    (rest.map encodeIndex).flatten))) := by
            have := goRead_exact i.startKey (i.endKey ++ (i64be i.offset ++ (i64be i.length ++
                    (rest.map encodeIndex).flatten)))
              (by simp only [List.length_append, i64be_len]; omega)
            simpa using this
          have r4 : goRead (i.endKey ++ (i64be i.offset ++ (i64be i.length ++
                    (rest.map encodeIndex).flatten))) i.endKey.length
              = .ok (i.endKey, i64be i.offset ++ (i64be i.length ++
                    (rest.map encodeIndex).flatten)) := by
            have := goRead_exact i.endKey (i64be i.offset ++ (i64be i.length ++
                    (rest.map encodeIndex).flatten))
              (by simp only [List.length_append, i64be_len]; omega)
            simpa using this
          have r5 : readU64E (i64be i.offset ++ (i64be i.length ++
                    (rest.map encodeIndex).flatten))
              = .ok (i.offset, i64be i.length ++ (rest.map encodeIndex).flatten) :=
            readU64E_i64be _ hoff _
          have r6 : readU64E (i64be i.length ++ (rest.map encodeIndex).flatten)
              = .ok (i.length, (rest.map encodeIndex).flatten) :=
            readU64E_i64be _ hlen _
          have r7 : parseIndexes f ((rest.map encodeIndex).flatten) = .ok rest :=
            ih f (by simp at hfuel; omega)
              (fun x hx => hb x (List.mem_cons_of_mem _ hx))
          unfold parseIndexes
          rw [if_neg hcond, hbuf]
          simp only [r1, r2, r3, r4, r5, r6, r7]

theorem parseFilters_adequate : ∀ (l : List (Nat × List Nat)) (fuel : Nat)
    (acc : List (Nat × BloomF)),
    l.length + 1 ≤ fuel →
    (∀ p ∈ l, p.2.length = 128) →
    ∃ out, parseFilters fuel
      ((l.map fun p => i64be p.1 ++ u32be p.2.length ++ p.2).flatten) acc = .ok out := by
  intro l
  induction l with
  | nil =>
      intro fuel acc hfuel hw
      cases fuel with
      | zero => omega
      | succ f => exact ⟨acc, by simp [parseFilters]⟩
  | cons p rest ih =>
      intro fuel acc hfuel hw
      cases fuel with
      | zero => omega
      | succ f =>
          have h128 : p.2.length = 128 := hw p (List.mem_cons_self _ _)
          have hbuf : (((p :: rest).map fun q => i64be q.1 ++ u32be q.2.length ++ q.2).flatten)
              = i64be p.1 ++ (u32be p.2.length ++ (p.2 ++
                  ((rest.map fun q => i64be q.1 ++ u32be q.2.length ++ q.2).flatten))) := by
            simp only [List.map_cons, List.flatten_cons, List.append_assoc]
          have hcond :
              ¬(((p :: rest).map fun q => i64be q.1 ++ u32be q.2.length ++ q.2).flatten).length
                = 0 := by
            rw [hbuf]
            simp only [List.length_append, i64be_len]
            omega
          have r1 : readU64E (i64be p.1 ++ (u32be p.2.length ++ (p.2 ++
                  ((rest.map fun q => i64be q.1 ++ u32be q.2.length ++ q.2).flatten))))
              = .ok (p.1 % 2 ^ 64, u32be p.2.length ++ (p.2 ++
                  ((rest.map fun q => i64be q.1 ++ u32be q.2.length ++ q.2).flatten))) :=
            readU64E_i64be_mod _ _
          have r2 : readU32E (u32be p.2.length ++ (p.2 ++
                  ((rest.map fun q => i64be q.1 ++ u32be q.2.length ++ q.2).flatten)))
              = .ok (p.2.length, p.2 ++
                  ((rest.map fun q => i64be q.1 ++ u32be q.2.length ++ q.2).flatten)) :=
            readU32E_u32be _ (by omega) _
          have hcond2 : ¬(p.2.length = 0 ∨ (p.2 ++
                  ((rest.map fun q => i64be q.1 ++ u32be q.2.length ++ q.2).flatten)).length
                < p.2.length) := by
            simp only [List.length_append]
            omega
          have r3 : goRead (p.2 ++
                  ((rest.map fun q => i64be q.1 ++ u32be q.2.length ++ q.2).flatten))
                p.2.length
              = .ok (p.2, (rest.map fun q => i64be q.1 ++ u32be q.2.length ++ q.2).flatten) := by
            have := goRead_exact p.2
              ((rest.map fun q => i64be q.1 ++ u32be q.2.length ++ q.2).flatten)
              (by omega)
            simpa using this
          obtain ⟨out, hout⟩ := ih f
            (filterMapSet acc (p.1 % 2 ^ 64) (bloomLoad (newBloomFilter 1024 3) p.2))
            (by simp at hfuel; omega)
            (fun x hx => hw x (List.mem_cons_of_mem _ hx))
          refine ⟨out, ?_⟩
          unfold parseFilters
          rw [if_neg hcond, hbuf]
          simp only [r1, r2]
          rw [if_neg hcond2]
          simp only [r3]
          exact hout

theorem indexLoop_none (r : SSTReaderM) (key : List Nat) (hk : key ≠ []) :
    ∀ idxs : List IndexM, (∀ i ∈ idxs, i.endKey = []) →
      readerGetIndexLoop r key idxs = .ok none := by
  intro idxs
  induction idxs with
  | nil => intro _; rfl
  | cons i rest ih =>
      intro h
      have hgt : lexCompare key i.endKey = .gt := by
        rw [h i (List.mem_cons_self _ _)]
        exact lexCompare_nil_gt key hk
      unfold readerGetIndexLoop
      rw [if_neg (fun hc => hc.2 hgt)]
      exact ih (fun x hx => h x (List.mem_cons_of_mem _ hx))

theorem scanData_adequate : ∀ (entries : List (List Nat × List Nat)) (fuel : Nat)
    (k v : List Nat),
    entries.length + 1 ≤ fuel →
    (∀ e ∈ entries, e.1.length < 2 ^ 32 ∧ e.2.length < 2 ^ 32) →
    (∀ e ∈ entries, e.1 ≠ []) →
    (∀ e, entries.getLast? = some e → e.2 ≠ []) →
    List.Chain' (fun a b => lexCompare a.1 b.1 = .lt) entries →
    (k, v) ∈ entries →
    scanDataLoop fuel (joinKV entries) k = .ok v := by
  intro entries
  induction entries with
  | nil =>
      intro fuel k v _ _ _ _ _ hmem
      simp at hmem
  | cons e rest ih =>
      intro fuel k v hfuel hlens hkeys hlast hchain hmem
      obtain ⟨k0, v0⟩ := e
      cases fuel with
      | zero => omega
      | succ f =>
          have hk1 : k0.length < 2 ^ 32 := (hlens (k0, v0) (List.mem_cons_self _ _)).1
          have hv1 : v0.length < 2 ^ 32 := (hlens (k0, v0) (List.mem_cons_self _ _)).2
          have hkne : k0 ≠ [] := hkeys (k0, v0) (List.mem_cons_self _ _)
          have hkpos : 0 < k0.length := List.length_pos.mpr hkne
          have hbuf : joinKV ((k0, v0) :: rest)
              = u32be k0.length ++ (u32be v0.length ++ (k0 ++ (v0 ++ joinKV rest))) := by
            rw [joinKV_cons]
            simp [encKV, List.append_assoc]
          have hvpos : 0 < v0.length + (joinKV rest).length := by
            cases rest with
            | nil =>
                have hlv : v0 ≠ [] := hlast (k0, v0) (by simp)
                have hlvp : 0 < v0.length := List.length_pos.mpr hlv
                simp only [joinKV, List.map_nil, List.flatten_nil, List.length_nil]
                omega
            | cons r rs =>
                have := joinKV_cons_len_pos r rs
                omega
          have r1 : readU32E (u32be k0.length ++ (u32be v0.length ++ (k0 ++ (v0 ++ joinKV rest))))
              = .ok (k0.length, u32be v0.length ++ (k0 ++ (v0 ++ joinKV rest))) :=
            readU32E_u32be _ hk1 _
          have r2 : readU32E (u32be v0.length ++ (k0 ++ (v0 ++ joinKV rest)))
              = .ok (v0.length, k0 ++ (v0 ++ joinKV rest)) :=
            readU32E_u32be _ hv1 _
          have r3 : goRead (k0 ++ (v0 ++ joinKV rest)) k0.length
              = .ok (k0, v0 ++ joinKV rest) := by
            have := goRead_exact k0 (v0 ++ joinKV rest)
              (by simp only [List.length_append]; omega)
            simpa using this
          have hcond : ¬(joinKV ((k0, v0) :: rest)).length = 0 := by
            have := joinKV_cons_len_pos (k0, v0) rest
            omega
          unfold scanDataLoop
          rw [if_neg hcond, hbuf]
          simp only [r1, r2, r3]
          by_cases hk0 : k0 = k
          · have hv0 : v0 = v := by
              rcases List.mem_cons.mp hmem with heq | hrest
              · injection heq with h1 h2
                exact h2.symm
              · exfalso
                have := chain_all_lt Prod.fst rest (k0, v0) hchain (k, v) hrest
                rw [hk0] at this
                rw [lexCompare_self] at this
                cases this
            have r4 : goRead (v0 ++ joinKV rest) v0.length = .ok (v0, joinKV rest) := by
              have := goRead_exact v0 (joinKV rest) (by omega)
              simpa using this
            rw [if_pos hk0]
            simp only [r4]
            rw [hv0]
          · rw [if_neg hk0]
            have hdrop : (v0 ++ joinKV rest).drop v0.length = joinKV rest :=
              List.drop_left v0 (joinKV rest)
            rw [hdrop]
            have hmemr : (k, v) ∈ rest := by
              rcases List.mem_cons.mp hmem with heq | hrest
              · injection heq with h1 h2
                exact absurd h1.symm hk0
              · exact hrest
            apply ih f k v (by simp at hfuel; omega)
              (fun x hx => hlens x (List.mem_cons_of_mem _ hx))
              (fun x hx => hkeys x (List.mem_cons_of_mem _ hx))
              ?_ hchain.tail hmemr
            intro x hx
            cases rest with
            | nil => simp at hx
            | cons r rs =>
                exact hlast x (by rw [List.getLast?_cons_cons]; exact hx)

theorem newSSTReader_sections
    (D Ib Fb : List Nat) (idxs : List IndexM) (fl : List (Nat × List Nat))
    (kvs : List (List Nat × GoB))
    (hIb : Ib = (idxs.map encodeIndex).flatten)
    (hFb : Fb = (fl.map fun p => i64be p.1 ++ u32be p.2.length ++ p.2).flatten)
    (h128 : ∀ p ∈ fl, p.2.length = 128)
    (hidxb : ∀ i ∈ idxs, i.startKey.length < 2 ^ 32 ∧ i.endKey.length < 2 ^ 32
      ∧ i.offset < 2 ^ 64 ∧ i.length < 2 ^ 64)
    (hkv : parseKVs (D.length + 1) D = .ok kvs)
    (hsize : D.length + Ib.length + Fb.length + 12 < 2 ^ 32) :
    ∃ r : SSTReaderM,
      newSSTReader (D ++ Ib ++ Fb ++ u32be D.length ++ u32be Ib.length ++ u32be Fb.length)
        = .ok r
      ∧ r.file = D ++ Ib ++ Fb ++ u32be D.length ++ u32be Ib.length ++ u32be Fb.length
      ∧ r.dataOffset = 0
      ∧ r.dataLength = D.length
      ∧ r.index = idxs
      ∧ r.kvList = kvs := by
  obtain ⟨file, hfileEq⟩ :
      ∃ x, x = D ++ Ib ++ Fb ++ u32be D.length ++ u32be Ib.length ++ u32be Fb.length :=
    ⟨_, rfl⟩
  rw [← hfileEq]
  have hD32 : D.length < 2 ^ 32 := by omega
  have hI32 : Ib.length < 2  ^ 32 := by omega
  have hF32 : Fb.length < 2 ^ 32 := by omega
  have hflen : file.length = D.length + Ib.length + Fb.length + 12 := by
    rw [hfileEq]
    simp only [List.length_append, u32be_len]
  have hfile2 : file = D ++ (Ib ++ (Fb ++ (u32be D.length ++ (u32be Ib.length ++ u32be Fb.length)))) := by
    rw [hfileEq]
    simp [List.append_assoc]
  have hfile3 : file = (D ++ Ib) ++ (Fb ++ (u32be D.length ++ (u32be Ib.length ++ u32be Fb.length))) := by
    rw [hfileEq]
    simp [List.append_assoc]
  have hfooter : file.drop (file.length - 12)
      = u32be D.length ++ (u32be Ib.length ++ u32be Fb.length) := by
    have hfile4 : file = (D ++ Ib ++ Fb) ++ (u32be D.length ++ (u32be Ib.length ++ u32be Fb.length)) := by
      rw [hfileEq]
      simp [List.append_assoc]
    have hn : file.length - 12 = (D ++ Ib ++ Fb).length := by
      simp only [List.length_append]
      omega
    rw [hn, hfile4, List.drop_left]
  have hb1 : beU32At (u32be D.length ++ (u32be Ib.length ++ u32be Fb.length)) = D.length :=
    beU32At_u32be _ hD32 _
  have hdrop4 : (u32be D.length ++ (u32be Ib.length ++ u32be Fb.length)).drop 4
      = u32be Ib.length ++ u32be Fb.length := rfl
  have hb2 : beU32At (u32be Ib.length ++ u32be Fb.length) = Ib.length :=
    beU32At_u32be _ hI32 _
  have hdrop8 : (u32be D.length ++ (u32be Ib.length ++ u32be Fb.length)).drop 8
      = u32be Fb.length := rfl
  have hb3 : beU32At (u32be Fb.length) = Fb.length := by
    rw [← List.append_nil (u32be Fb.length)]
    exact beU32At_u32be _ hF32 []
  have hlt : ¬ file.length < 12 := by omega
  have hcond2 : ¬((D.length + Ib.length + Fb.length + 12) % 2 ^ 32 ≠ file.length) := by
    rw [Nat.mod_eq_of_lt hsize]
    omega
  have hno1 : ¬ file.length < D.length + Ib.length := by omega
  have hdropD : file.drop D.length
      = Ib ++ (Fb ++ (u32be D.length ++ (u32be Ib.length ++ u32be Fb.length))) := by
    rw [hfile2]
    exact List.drop_left D _
  have hreadI : readAt file D.length Ib.length = .ok Ib := by
    unfold readAt
    rw [if_neg hno1, hdropD, List.take_left]
  have hreadD : readAt file 0 D.length = .ok D := by
    unfold readAt
    rw [if_neg (by omega), List.drop_zero, hfile2, List.take_left]
  have hreadF : readAt file (D.length + Ib.length) Fb.length = .ok Fb := by
    unfold readAt
    rw [if_neg (by omega)]
    have hlen3 : D.length + Ib.length = (D ++ Ib).length := by simp
    rw [hlen3, hfile3, List.drop_left, List.take_left]
  have hpidx : parseIndexes (Ib.length + 1) Ib = .ok idxs := by
    rw [hIb]
    exact parseIndexes_adequate idxs _ (by have := idxSection_len_ge idxs; omega) hidxb
  obtain ⟨fm, hfm⟩ : ∃ out, parseFilters (Fb.length + 1) Fb [] = .ok out := by
    rw [hFb]
    exact parseFilters_adequate fl _ [] (by have := filterSection_len_ge fl; omega) h128
  unfold newSSTReader
  rw [if_neg hlt]
  dsimp only
  simp only [hfooter, hdrop4, hdrop8, hb1, hb2, hb3]
  rw [if_neg hcond2]
  simp only [hreadI, hpidx, hreadD, hkv, hreadF, hfm]
  exact ⟨_, rfl, rfl, rfl, rfl, rfl, rfl⟩

/-- C3 (amended): for entries whose keys are strictly ascending, non-empty
and of `uint32`-range lengths, whose values are of `uint32`-range lengths,
whose final value is non-empty, and whose resulting file fits in `uint32`
range, the reader opened on the writer's output yields exactly the written
sequence via its iterator, and `Get` returns every written value.  (The
final-value restriction is necessary: see the trailing-empty-value
counterexample.) -/
theorem c3_sst_round_trip (bs : Nat) (entries : List (List Nat × List Nat))
    (hchain : List.Chain' (fun a b => lexCompare a.1 b.1 = .lt) entries)
    (hkeys : ∀ e ∈ entries, e.1 ≠ [])
    (hlens : ∀ e ∈ entries, e.1.length < 2 ^ 32 ∧ e.2.length < 2 ^ 32)
    (hlast : ∀ e ∈ entries, entries.getLast? = some e → e.2 ≠ [])
    (hsize : (sstWriterFile bs entries).length < 2 ^ 32) :
    ∃ r : SSTReaderM, newSSTReader (sstWriterFile bs entries) = .ok r
      ∧ readerIterAll r = .ok entries
      ∧ ∀ e ∈ entries, readerGet r e.1 = .ok e.2 := by
  have hlast' : ∀ e, entries.getLast? = some e → e.2 ≠ [] :=
    fun x hx => hlast x (getLast?_mem entries x hx) hx
  have hshape := flush_index_shape bs entries
  have hlenb := writer_index_len bs entries
  obtain ⟨fl, hfl, h128⟩ := flush_filterBuf bs entries
  have hfileShape : sstWriterFile bs entries
      = joinKV entries
        ++ ((mustRotateDataBlock (sstAddAll (newSSTWriter bs) entries)).index.map
              encodeIndex).flatten
        ++ (sstFlushState (sstAddAll (newSSTWriter bs) entries)).filterBuf
        ++ u32be (joinKV entries).length
        ++ u32be (((mustRotateDataBlock (sstAddAll (newSSTWriter bs) entries)).index.map
              encodeIndex).flatten).length
        ++ u32be (sstFlushState (sstAddAll (newSSTWriter bs) entries)).filterBuf.length := by
    unfold sstWriterFile sstFileOf
    dsimp only
    rw [flush_dataBuf, flush_indexBuf]
  have hflen := congrArg List.length hfileShape
  simp only [List.length_append, u32be_len] at hflen
  have hsize' : (joinKV entries).length
      + (((mustRotateDataBlock (sstAddAll (newSSTWriter bs) entries)).index.map
            encodeIndex).flatten).length
      + (sstFlushState (sstAddAll (newSSTWriter bs) entries)).filterBuf.length + 12
      < 2 ^ 32 := by omega
  have hidxb : ∀ i ∈ (mustRotateDataBlock (sstAddAll (newSSTWriter bs) entries)).index,
      i.startKey.length < 2 ^ 32 ∧ i.endKey.length < 2 ^ 32
        ∧ i.offset < 2 ^ 64 ∧ i.length < 2 ^ 64 := by
    intro i hi
    obtain ⟨hs, he, ho⟩ := hshape i hi
    have hl := hlenb i hi
    refine ⟨?_, ?_, ?_, ?_⟩
    · rw [hs]; decide
    · rw [he]; decide
    · rw [ho]; decide
    · omega
  have hkv : parseKVs ((joinKV entries).length + 1) (joinKV entries)
      = .ok (entries.map fun e => (e.1, some e.2)) :=
    parseKVs_adequate entries _ (by have := joinKV_len_ge entries; omega) hlens hkeys hlast'
  obtain ⟨r, hopen, hrfile, hroff, hrdl, hridx, hrkv⟩ :=
    newSSTReader_sections (joinKV entries)
      (((mustRotateDataBlock (sstAddAll (newSSTWriter bs) entries)).index.map
          encodeIndex).flatten)
      ((sstFlushState (sstAddAll (newSSTWriter bs) entries)).filterBuf)
      ((mustRotateDataBlock (sstAddAll (newSSTWriter bs) entries)).index)
      fl (entries.map fun e => (e.1, some e.2)) rfl hfl h128 hidxb hkv hsize'
  rw [← hfileShape] at hopen hrfile
  have hfile2 : sstWriterFile bs entries = joinKV entries ++
      (((mustRotateDataBlock (sstAddAll (newSSTWriter bs) entries)).index.map
          encodeIndex).flatten ++
        ((sstFlushState (sstAddAll (newSSTWriter bs) entries)).filterBuf ++
          (u32be (joinKV entries).length ++
            (u32be (((mustRotateDataBlock (sstAddAll (newSSTWriter bs) entries)).index.map
                encodeIndex).flatten).length ++
              u32be (sstFlushState (sstAddAll (newSSTWriter bs) entries)).filterBuf.length)))) := by
    rw [hfileShape]
    simp [List.append_assoc]
  have hread : readAt r.file 0 (joinKV entries).length = .ok (joinKV entries) := by
    rw [hrfile]
    unfold readAt
    rw [if_neg (by omega), List.drop_zero, hfile2, List.take_left]
  have hiter : readerIterAll r = .ok entries := by
    unfold readerIterAll
    rw [hroff, hrdl]
    simp only [hread]
    rw [iterSeq_adequate entries _ (by have := joinKV_len_ge entries; omega)
      hlens hkeys hlast']
  have hget : ∀ e ∈ entries, readerGet r e.1 = .ok e.2 := by
    intro e he
    obtain ⟨k, v⟩ := e
    have hloop := indexLoop_none r k (hkeys (k, v) he)
      (mustRotateDataBlock (sstAddAll (newSSTWriter bs) entries)).index
      (fun i hi => ((hshape i hi).2.1))
    unfold readerGet
    rw [hridx]
    simp only [hloop]
    rw [hroff, hrdl]
    simp only [hread]
    exact scanData_adequate entries _ k v (by have := joinKV_len_ge entries; omega)
      hlens hkeys hlast' hchain he
  exact ⟨r, hopen, hiter, hget⟩

theorem c3_sst_round_trip_witness :
    ∃ r : SSTReaderM,
      newSSTReader (sstWriterFile 5 [([1], [7]), ([2], [8])]) = .ok r
      ∧ readerIterAll r = .ok [([1], [7]), ([2], [8])]
      ∧ ∀ e ∈ [([1], [7]), ([2], [8])], readerGet r e.1 = .ok e.2 :=
  c3_sst_round_trip 5 [([1], [7]), ([2], [8])]
    (by rw [List.chain'_cons]; exact ⟨by decide, by simp⟩)
    (by decide) (by decide) (by decide) (by decide)
